import Mathlib

/-!
Shallow embedding of the faceit-team-stats pipeline (the series-based variant,
which is the richest of the repository's variants and defines target behavior).

Modelling conventions:
* JSON objects with optional fields become structures with `Option` fields; a
  JS object property that is never set at a construction site is `none`.
* JS `Map` / plain objects used as dictionaries become insertion-ordered
  association lists (`List (String × _)`), with `Map.set` replacing in place.
* `date` fields hold the epoch value `finished_at`: the code derives the date
  as an ISO-8601 string of `finished_at * 1000`, a strictly monotone injective
  image, so every date comparison in the code agrees with comparing the epochs.
* The external service is a pure oracle `String → Option Detail`; `none` is a
  failed detail fetch (non-2xx or network error, both of which the code's
  `getMatchDetails` catches and turns into `null`).
* `Array.prototype.sort` with a numeric comparator is a stable sort, and for a
  total preorder the stable sorted permutation is unique; it is modelled with
  `List.insertionSort` (stable) on the comparator's ordering.
* `Math.round((wins / totalMatches) * 100)` is modelled by exact rational
  round-half-up arithmetic, `(wins * 200 + totalMatches) / (2 * totalMatches)`
  in natural division.
-/

/-- JS truthiness of an optional string: `undefined` and `""` are falsy. -/
def jsTruthyStr : Option String → Bool
  | none => false
  | some s => !(s == "")

/-- `hay` starts with `pat` (character lists). -/
def startsWithChars : List Char → List Char → Bool
  | _, [] => true
  | [], _ :: _ => false
  | a :: hay, b :: pat => a == b && startsWithChars hay pat

/-- `pat` occurs as a contiguous substring of `hay` (character lists). -/
def charsIncludes : List Char → List Char → Bool
  | [], pat => pat.isEmpty
  | a :: hay, pat => startsWithChars (a :: hay) pat || charsIncludes hay pat

/-- JS `String.prototype.includes`. -/
def strIncludes (s pat : String) : Bool := charsIncludes s.toList pat.toList

/-- JS `String.prototype.split` with a single-character separator. -/
def splitChars (sep : Char) : List Char → List (List Char)
  | [] => [[]]
  | c :: rest =>
    let r := splitChars sep rest
    if c == sep then [] :: r
    else
      match r with
      | [] => [[c]]
      | h :: t => (c :: h) :: t

/-- JS `Array.prototype.join('_')` at the character level. -/
def joinUnderscore : List (List Char) → List Char
  | [] => []
  | [x] => x
  | x :: y :: t => x ++ '_' :: joinUnderscore (y :: t)

/-! ### Data model (external JSON shapes and pipeline records) -/

structure PlayerRec where
  nickname : String
deriving DecidableEq, Repr

structure TeamSide where
  team_id : String
  players : Option (List PlayerRec)
deriving DecidableEq, Repr

structure MapEntity where
  name : Option String
  guid : Option String
deriving DecidableEq, Repr

structure MapVoting where
  pick : Option (List String)
  entities : Option (List MapEntity)
deriving DecidableEq, Repr

structure Voting where
  map : Option MapVoting
deriving DecidableEq, Repr

/-- A score payload (`results.score`), a JS object of faction fields. -/
abbrev Score := List (String × Nat)

structure ResultsRec where
  winner : Option String
  score : Option Score
deriving DecidableEq, Repr

/-- A raw match as stored in the `allMatches` collection. -/
structure RawMatch where
  id : String
  date : Nat
  finished_at : Nat
  teams : Option (List TeamSide)
  results : Option ResultsRec
  voting : Option Voting
deriving DecidableEq, Repr

/-- An item of a player-history page. -/
structure HistItem where
  match_id : String
  finished_at : Nat
  teams : Option (List TeamSide)
  results : Option ResultsRec
  voting : Option Voting
deriving DecidableEq, Repr

/-- A normalized per-match record inside a series. The construction sites in
`groupMatchesIntoSeries`/`findSeriesMatches` never set a `teams` property, so
there it is `none`; the field exists because `getPlayersFromMatch` reads it. -/
structure MatchSummary where
  id : String
  date : Nat
  map : String
  result : String
  score : Score
  teams : Option (List TeamSide)
deriving DecidableEq, Repr

structure Series where
  id : String
  date : Nat
  «matches» : List MatchSummary
deriving DecidableEq, Repr

/-- A series kept by the team filter (`{...series, ourPlayers, totalOurPlayers}`). -/
structure TeamSeries where
  id : String
  date : Nat
  «matches» : List MatchSummary
  ourPlayers : List String
  totalOurPlayers : Nat
deriving DecidableEq, Repr

structure MapStat where
  map : String
  totalMatches : Nat
  wins : Nat
  losses : Nat
  winRate : Nat
deriving DecidableEq, Repr

/-- A match/series detail record as fetched by `getMatchDetails`. -/
structure Detail where
  parent_match_id : Option String
  «matches» : Option (List String)
  finished_at : Nat
  teams : Option (List TeamSide)
  results : Option ResultsRec
  voting : Option Voting
deriving DecidableEq, Repr

/-- The external detail endpoint: `none` models a failed fetch (the code's
`getMatchDetails` returns `null` both on a non-2xx response and on a thrown
network error, which it catches itself). -/
abbrev DetailOracle := String → Option Detail

/-! ### Map-name and result resolution -/

/-- `matchData.voting?.map?.pick?.[0]`. -/
def pickZero (v : Option Voting) : Option String :=
  ((v.bind Voting.map).bind MapVoting.pick).bind List.head?

/-- `matchData.voting?.map?.entities?.[0]`. -/
def entityZero (v : Option Voting) : Option MapEntity :=
  ((v.bind Voting.map).bind MapVoting.entities).bind List.head?

/-- `getMapName`, on any record carrying a `voting` field. -/
def getMapNameV (voting : Option Voting) : String :=
  if jsTruthyStr (pickZero voting) then (pickZero voting).getD ""
  else if jsTruthyStr ((entityZero voting).bind MapEntity.name) then
    ((entityZero voting).bind MapEntity.name).getD ""
  else if jsTruthyStr ((entityZero voting).bind MapEntity.guid) then
    let guid := ((entityZero voting).bind MapEntity.guid).getD ""
    if strIncludes guid "de_" then
      String.mk (joinUnderscore ((splitChars '_' guid.toList).take 2))
    else guid
  else "Unknown"

def getMapName (m : RawMatch) : String := getMapNameV m.voting

def getMapNameD (d : Detail) : String := getMapNameV d.voting

/-- `getMatchResult`: the raw winner token, or "Unknown" when falsy. -/
def getMatchResult (m : RawMatch) : String :=
  if jsTruthyStr (m.results.bind ResultsRec.winner) then
    (m.results.bind ResultsRec.winner).getD ""
  else "Unknown"

def getMatchResultD (d : Detail) : String :=
  if jsTruthyStr (d.results.bind ResultsRec.winner) then
    (d.results.bind ResultsRec.winner).getD ""
  else "Unknown"

/-! ### Association-list operations mirroring JS `Map` -/

def mapHasKey (m : List (String × α)) (k : String) : Bool :=
  m.any (fun kv => kv.1 == k)

/-- JS `Map.prototype.set`: replace in place if the key exists, else append. -/
def mapSet (m : List (String × α)) (k : String) (v : α) : List (String × α) :=
  if mapHasKey m k then m.map (fun kv => if kv.1 == k then (k, v) else kv)
  else m ++ [(k, v)]

/-! ### History Collector (getTeamStats, step 3) -/

/-- One history page response: `items` mirrors `matchesData.items` (absent or a
list) and `endOffset` mirrors `matchesData.end`. -/
structure PageData where
  items : Option (List HistItem)
  endOffset : Nat
deriving DecidableEq, Repr

/-- A history page fetch: failed (`!matchesResponse.ok`) or a page. -/
inductive PageResp where
  | fail : PageResp
  | page : PageData → PageResp
deriving DecidableEq, Repr

abbrev MatchColl := List (String × RawMatch)

/-- `if (!allMatches.has(id)) allMatches.set(id, {...})` — first seen wins. -/
def insertMatch (coll : MatchColl) (it : HistItem) : MatchColl :=
  if mapHasKey coll it.match_id then coll
  else coll ++ [(it.match_id,
    { id := it.match_id, date := it.finished_at, finished_at := it.finished_at,
      teams := it.teams, results := it.results, voting := it.voting })]

/-- The inner `for (const match of matchesData.items)` loop: insert items in
order until one is older than the cutoff; that item and the rest of the page
are discarded and the returned flag records that pagination must stop. -/
def processItems (cutoff : Nat) : List HistItem → MatchColl → MatchColl × Bool
  | [], coll => (coll, false)
  | it :: rest, coll =>
    if it.finished_at < cutoff then (coll, true)
    else processItems cutoff rest (insertMatch coll it)

/-- The `while (hasMoreMatches)` pagination loop for one player. -/
def collectForPlayer (cutoff : Nat) : List PageResp → Nat → MatchColl → MatchColl
  | [], _, coll => coll
  | PageResp.fail :: _, _, coll => coll
  | PageResp.page pd :: rest, offset, coll =>
    match pd.items with
    | none => coll
    | some [] => coll
    | some (it :: its) =>
      match processItems cutoff (it :: its) coll with
      | (coll2, true) => coll2
      | (coll2, false) =>
        if pd.endOffset ≤ offset + 100 then coll2
        else collectForPlayer cutoff rest (offset + 100) coll2

/-- The whole collection phase over the roster (one page-response list per
player, the shared `allMatches` map threaded through). -/
def collectMatches (cutoff : Nat) (histories : List (List PageResp)) : MatchColl :=
  histories.foldl (fun coll resps => collectForPlayer cutoff resps 0 coll) []

/-! ### Series Reconstructor -/

/-- The summary built from a raw match on the standalone path. -/
def rawSummary (m : RawMatch) : MatchSummary :=
  { id := m.id, date := m.date, map := getMapName m, result := getMatchResult m,
    score := (m.results.bind ResultsRec.score).getD [], teams := none }

/-- The summary pushed by `findSeriesMatches` from a member's detail record. -/
def detailSummary (matchId : String) (d : Detail) : MatchSummary :=
  { id := matchId, date := d.finished_at, map := getMapNameD d,
    result := getMatchResultD d,
    score := (d.results.bind ResultsRec.score).getD [], teams := none }

/-- `findSeriesMatches`: read the series' declared member ids, keep those in
the locally known id set whose own detail fetch succeeds, and sort the
summaries chronologically. Both failure paths (series fetch `null`, no
`matches` field) yield the empty list. -/
def findSeriesMatches (oracle : DetailOracle) (seriesId : String)
    (availableMatchIds : List String) : List MatchSummary :=
  (match oracle seriesId with
    | none => []
    | some seriesDetails =>
      match seriesDetails.«matches» with
      | none => []
      | some memberIds =>
        memberIds.foldl (fun acc matchId =>
          if availableMatchIds.contains matchId then
            match oracle matchId with
            | some matchDetails => acc ++ [detailSummary matchId matchDetails]
            | none => acc
          else acc) []).insertionSort (fun a b => a.date ≤ b.date)

def standaloneSeries (m : RawMatch) : Series :=
  { id := m.id, date := m.date, «matches» := [rawSummary m] }

def seriesContainsId (s : Series) (matchId : String) : Bool :=
  s.«matches».any (fun mm => mm.id == matchId)

/-- One iteration of the `for (const match of matches)` loop of
`groupMatchesIntoSeries`. The JS `catch` branch (demote to standalone) is
unreachable in this embedding because `getMatchDetails` and
`findSeriesMatches` swallow their own errors, exactly as in the source. -/
def groupStep (oracle : DetailOracle) (availableMatchIds : List String)
    (seriesMap : List (String × Series)) (m : RawMatch) : List (String × Series) :=
  if (seriesMap.map Prod.snd).any (fun s => seriesContainsId s m.id) then seriesMap
  else
    match oracle m.id with
    | some matchDetails =>
      if jsTruthyStr matchDetails.parent_match_id then
        let seriesId := matchDetails.parent_match_id.getD ""
        if mapHasKey seriesMap seriesId then seriesMap
        else
          match findSeriesMatches oracle seriesId availableMatchIds with
          | [] => seriesMap
          | first :: rest =>
            mapSet seriesMap seriesId
              { id := seriesId, date := first.date, «matches» := first :: rest }
      else mapSet seriesMap m.id (standaloneSeries m)
    | none => mapSet seriesMap m.id (standaloneSeries m)

def groupMatchesIntoSeries («matches» : List RawMatch) (oracle : DetailOracle) :
    List Series :=
  («matches».foldl (groupStep oracle («matches».map RawMatch.id)) []).map Prod.snd

/-! ### Team Filter -/

structure MatchPlayer where
  nickname : String
  team : String
deriving DecidableEq, Repr

/-- `getPlayersFromMatch`: every team's player list from the match's team
structure (empty when the record carries no `teams`). -/
def getPlayersFromMatch (m : MatchSummary) : List MatchPlayer :=
  match m.teams with
  | none => []
  | some teams =>
    teams.foldl (fun acc t =>
      acc ++ (t.players.getD []).map
        (fun p => { nickname := p.nickname, team := t.team_id })) []

/-- JS `Set.prototype.add` on an insertion-ordered duplicate-free list. -/
def addToSet (s : List String) (x : String) : List String :=
  if s.contains x then s else s ++ [x]

/-- `getOurPlayersInSeries`: the deduplicated roster nicknames appearing
across all matches of the series, in first-appearance order. -/
def getOurPlayersInSeries (s : Series) (teamPlayerNames : List String) :
    List String :=
  s.«matches».foldl (fun acc m =>
    (getPlayersFromMatch m).foldl (fun acc2 p =>
      if teamPlayerNames.contains p.nickname then addToSet acc2 p.nickname
      else acc2) acc) []

def mkTeamSeries (s : Series) (ours : List String) : TeamSeries :=
  { id := s.id, date := s.date, «matches» := s.«matches»,
    ourPlayers := ours, totalOurPlayers := ours.length }

/-- Step 5 of `getTeamStats`: keep series with at least five roster players. -/
def teamFilter (seriesMatches : List Series) (teamPlayerNames : List String) :
    List TeamSeries :=
  seriesMatches.foldl (fun acc s =>
    let ours := getOurPlayersInSeries s teamPlayerNames
    if 5 ≤ ours.length then acc ++ [mkTeamSeries s ours] else acc) []

/-! ### Map Statistics Aggregator -/

/-- `Math.round((wins / totalMatches) * 100)` at exact rational precision
(round half up), guarded exactly like the source's ternary. -/
def computeWinRate (wins totalMatches : Nat) : Nat :=
  if 0 < totalMatches then (wins * 200 + totalMatches) / (2 * totalMatches)
  else 0

def initMapStat (mapName : String) : MapStat :=
  { map := mapName, totalMatches := 0, wins := 0, losses := 0, winRate := 0 }

/-- The per-match mutation of a map's entry. -/
def bumpMapStat (st : MapStat) (m : MatchSummary) : MapStat :=
  let totalMatches := st.totalMatches + 1
  let wins := if m.result == "win" then st.wins + 1 else st.wins
  let losses := if m.result == "loss" then st.losses + 1 else st.losses
  { map := st.map, totalMatches := totalMatches, wins := wins, losses := losses,
    winRate := computeWinRate wins totalMatches }

/-- Processing of one match against the `mapStats` object (a string-keyed JS
object in first-encounter order: create the entry if missing, then bump). -/
def updateMapStats (acc : List MapStat) (m : MatchSummary) : List MapStat :=
  if acc.any (fun st => st.map == m.map) then
    acc.map (fun st => if st.map == m.map then bumpMapStat st m else st)
  else acc ++ [bumpMapStat (initMapStat m.map) m]

/-- `Object.values(mapStats)` after both loops of
`analyzeMapStatisticsFromSeries`. -/
def mapStatsBase (series : List TeamSeries) : List MapStat :=
  series.foldl (fun acc s => s.«matches».foldl updateMapStats acc) []

def analyzeMapStatisticsFromSeries (series : List TeamSeries) : List MapStat :=
  ((mapStatsBase series).insertionSort
      (fun a b => b.totalMatches ≤ a.totalMatches)).filter
    (fun st => !(st.map == "Unknown"))

/-! ### Result Composer -/

structure RecentMapEntry where
  map : String
  result : String
  score : Score
deriving DecidableEq, Repr

structure RecentSeries where
  id : String
  date : Nat
  maps : List RecentMapEntry
  seriesResult : String
  ourPlayers : List String
  totalOurPlayers : Nat
deriving DecidableEq, Repr

/-- `getSeriesResult`: majority of per-match "win" vs "loss" tokens. -/
def getSeriesResult (s : TeamSeries) : String :=
  let wins := (s.«matches».filter (fun m => m.result == "win")).length
  let losses := (s.«matches».filter (fun m => m.result == "loss")).length
  if losses < wins then "Win"
  else if wins < losses then "Loss"
  else "Draw"

def recentSeriesEntry (s : TeamSeries) : RecentSeries :=
  { id := s.id, date := s.date,
    maps := s.«matches».map (fun m =>
      { map := m.map, result := m.result, score := m.score }),
    seriesResult := getSeriesResult s,
    ourPlayers := s.ourPlayers, totalOurPlayers := s.totalOurPlayers }

/-- `teamSeries.sort(desc by date).slice(0, 10).map(...)`. -/
def recentSeriesOf (teamSeries : List TeamSeries) : List RecentSeries :=
  (((teamSeries.insertionSort (fun a b => b.date ≤ a.date)).take 10)).map
    recentSeriesEntry

/-- The report fields computed by the core (team identity and the clock-derived
period, which come from the excluded shell's data, are not modelled). -/
structure Report where
  players : List String
  totalSeries : Nat
  totalMatches : Nat
  mapStatistics : List MapStat
  recentSeries : List RecentSeries
  allMatchesFound : Nat
  seriesFound : Nat
  teamSeriesFound : Nat
deriving DecidableEq, Repr

def composeReport (players : List String) (allMatchesFound : Nat)
    (seriesMatches : List Series) (teamSeries : List TeamSeries) : Report :=
  { players := players,
    totalSeries := teamSeries.length,
    totalMatches := teamSeries.foldl (fun total s => total + s.«matches».length) 0,
    mapStatistics := analyzeMapStatisticsFromSeries teamSeries,
    recentSeries := recentSeriesOf teamSeries,
    allMatchesFound := allMatchesFound,
    seriesFound := seriesMatches.length,
    teamSeriesFound := teamSeries.length }

/-! ### Helper lemmas: Map Statistics Aggregator characterization -/

/-- All matches of all series, in processing order of the aggregator. -/
def allSeriesMatches (series : List TeamSeries) : List MatchSummary :=
  (series.map TeamSeries.«matches»).flatten

theorem foldl_updateMapStats_flatten (series : List TeamSeries) :
    ∀ acc : List MapStat,
      series.foldl (fun acc s => s.«matches».foldl updateMapStats acc) acc =
        ((series.map TeamSeries.«matches»).flatten).foldl updateMapStats acc := by
  induction series with
  | nil => intro acc; rfl
  | cons s rest ih =>
    intro acc
    simp only [List.foldl_cons, List.map_cons, List.flatten_cons, List.foldl_append]
    exact ih _

theorem mapStatsBase_eq (series : List TeamSeries) :
    mapStatsBase series = (allSeriesMatches series).foldl updateMapStats [] :=
  foldl_updateMapStats_flatten series []

theorem bumpMapStat_map (st : MapStat) (m : MatchSummary) :
    (bumpMapStat st m).map = st.map := rfl

theorem updateEntry_map (m : MatchSummary) (st : MapStat) :
    (if (st.map == m.map) = true then bumpMapStat st m else st).map = st.map := by
  by_cases hx : (st.map == m.map) = true <;> simp [hx, bumpMapStat]

/-- Correctness of one aggregator entry relative to a processed match list. -/
def statOk (ms : List MatchSummary) (st : MapStat) : Prop :=
  st.totalMatches = ms.countP (fun m => m.map == st.map) ∧
  st.wins = ms.countP (fun m => m.map == st.map && m.result == "win") ∧
  st.losses = ms.countP (fun m => m.map == st.map && m.result == "loss") ∧
  st.winRate = computeWinRate st.wins st.totalMatches ∧
  1 ≤ st.totalMatches

theorem countP_append_one (p : MatchSummary → Bool) (ms : List MatchSummary)
    (m : MatchSummary) :
    (ms ++ [m]).countP p = ms.countP p + (if p m then 1 else 0) := by
  simp [List.countP_append, List.countP_cons]

theorem statOk_bump_same {ms : List MatchSummary} {st : MapStat} {m : MatchSummary}
    (h : statOk ms st) (heq : st.map = m.map) :
    statOk (ms ++ [m]) (bumpMapStat st m) := by
  obtain ⟨h1, h2, h3, _, h5⟩ := h
  have hbeq : (m.map == st.map) = true := beq_iff_eq.mpr heq.symm
  have e1 : (bumpMapStat st m).map = st.map := rfl
  have e2 : (bumpMapStat st m).totalMatches = st.totalMatches + 1 := rfl
  have e3 : (bumpMapStat st m).wins =
      st.wins + (if (m.result == "win") = true then 1 else 0) := by
    by_cases hw : (m.result == "win") = true <;> simp [bumpMapStat, hw]
  have e4 : (bumpMapStat st m).losses =
      st.losses + (if (m.result == "loss") = true then 1 else 0) := by
    by_cases hl : (m.result == "loss") = true <;> simp [bumpMapStat, hl]
  refine ⟨?_, ?_, ?_, ?_, ?_⟩
  · rw [e1, e2, countP_append_one, h1, hbeq]
    simp
  · rw [e1, e3, countP_append_one, h2, hbeq]
    by_cases hw : (m.result == "win") = true <;> simp [hw]
  · rw [e1, e4, countP_append_one, h3, hbeq]
    by_cases hl : (m.result == "loss") = true <;> simp [hl]
  · by_cases hw : (m.result == "win") = true <;> simp [bumpMapStat, hw]
  · rw [e2]; omega
theorem statOk_untouched {ms : List MatchSummary} {st : MapStat} {m : MatchSummary}
    (h : statOk ms st) (hne : st.map ≠ m.map) :
    statOk (ms ++ [m]) st := by
  obtain ⟨h1, h2, h3, h4, h5⟩ := h
  have hbeq : (m.map == st.map) = false := by
    rw [beq_eq_false_iff_ne]
    exact fun hx => hne hx.symm
  refine ⟨?_, ?_, ?_, h4, h5⟩
  · rw [countP_append_one, h1, hbeq]; simp
  · rw [countP_append_one, h2, hbeq]; simp
  · rw [countP_append_one, h3, hbeq]; simp

theorem statOk_fresh {ms : List MatchSummary} {m : MatchSummary}
    (hzero : ms.countP (fun x => x.map == m.map) = 0) :
    statOk (ms ++ [m]) (bumpMapStat (initMapStat m.map) m) := by
  have hbeq : (m.map == m.map) = true := beq_iff_eq.mpr rfl
  have e1 : (bumpMapStat (initMapStat m.map) m).map = m.map := rfl
  have e2 : (bumpMapStat (initMapStat m.map) m).totalMatches = 1 := rfl
  have e3 : (bumpMapStat (initMapStat m.map) m).wins =
      (if (m.result == "win") = true then 1 else 0) := by
    by_cases hw : (m.result == "win") = true <;> simp [bumpMapStat, initMapStat, hw]
  have e4 : (bumpMapStat (initMapStat m.map) m).losses =
      (if (m.result == "loss") = true then 1 else 0) := by
    by_cases hl : (m.result == "loss") = true <;> simp [bumpMapStat, initMapStat, hl]
  have hz2 : ms.countP (fun x => x.map == m.map && x.result == "win") = 0 :=
    Nat.eq_zero_of_le_zero (hzero ▸ List.countP_mono_left
      (fun x _ hx => Bool.and_elim_left hx))
  have hz3 : ms.countP (fun x => x.map == m.map && x.result == "loss") = 0 :=
    Nat.eq_zero_of_le_zero (hzero ▸ List.countP_mono_left
      (fun x _ hx => Bool.and_elim_left hx))
  refine ⟨?_, ?_, ?_, ?_, ?_⟩
  · rw [e1, e2, countP_append_one, hzero, hbeq]
    simp
  · rw [e1, e3, countP_append_one, hz2, hbeq]
    by_cases hw : (m.result == "win") = true <;> simp [hw]
  · rw [e1, e4, countP_append_one, hz3, hbeq]
    by_cases hl : (m.result == "loss") = true <;> simp [hl]
  · by_cases hw : (m.result == "win") = true <;>
      simp [bumpMapStat, initMapStat, hw]
  · rw [e2]
/-- Invariant of the aggregation loop. -/
def aggInv (ms : List MatchSummary) (acc : List MapStat) : Prop :=
  (∀ st ∈ acc, statOk ms st) ∧
  acc.Pairwise (fun a b => a.map ≠ b.map) ∧
  (∀ m ∈ ms, ∃ st ∈ acc, st.map = m.map)

theorem aggInv_step {ms : List MatchSummary} {acc : List MapStat}
    (h : aggInv ms acc) (m : MatchSummary) :
    aggInv (ms ++ [m]) (updateMapStats acc m) := by
  obtain ⟨hok, hpw, hcov⟩ := h
  by_cases hany : (acc.any (fun st => st.map == m.map)) = true
  · unfold updateMapStats
    rw [if_pos hany]
    refine ⟨?_, ?_, ?_⟩
    · intro st' hst'
      obtain ⟨st, hst, rfl⟩ := List.mem_map.mp hst'
      by_cases heq : (st.map == m.map) = true
      · rw [if_pos heq]
        exact statOk_bump_same (hok st hst) (beq_iff_eq.mp heq)
      · rw [if_neg heq]
        exact statOk_untouched (hok st hst) (fun hx => heq (beq_iff_eq.mpr hx))
    · rw [List.pairwise_map]
      refine hpw.imp ?_
      intro a b hab
      rw [updateEntry_map, updateEntry_map]
      exact hab
    · intro m' hm'
      rcases List.mem_append.mp hm' with hin | hone
      · obtain ⟨st, hst, hmap⟩ := hcov m' hin
        exact ⟨_, List.mem_map_of_mem _ hst, by rw [updateEntry_map]; exact hmap⟩
      · obtain rfl : m' = m := by simpa using hone
        obtain ⟨st, hst, hbeq⟩ := List.any_eq_true.mp hany
        exact ⟨_, List.mem_map_of_mem _ hst,
          by rw [updateEntry_map]; exact beq_iff_eq.mp hbeq⟩
  · unfold updateMapStats
    rw [if_neg hany]
    have hfresh : ∀ st ∈ acc, ¬ st.map = m.map := by
      intro st hst heq
      exact hany (List.any_eq_true.mpr ⟨st, hst, beq_iff_eq.mpr heq⟩)
    have hzero : ms.countP (fun x => x.map == m.map) = 0 := by
      rw [List.countP_eq_zero]
      intro x hx hpx
      obtain ⟨st, hst, hmap⟩ := hcov x hx
      exact hfresh st hst (hmap.trans (beq_iff_eq.mp hpx))
    refine ⟨?_, ?_, ?_⟩
    · intro st' hst'
      rcases List.mem_append.mp hst' with hin | hone
      · exact statOk_untouched (hok st' hin) (hfresh st' hin)
      · obtain rfl : st' = bumpMapStat (initMapStat m.map) m := by simpa using hone
        exact statOk_fresh hzero
    · rw [List.pairwise_append]
      refine ⟨hpw, List.pairwise_singleton _ _, ?_⟩
      intro a ha b hb
      obtain rfl : b = bumpMapStat (initMapStat m.map) m := by simpa using hb
      rw [bumpMapStat_map]
      exact hfresh a ha
    · intro m' hm'
      rcases List.mem_append.mp hm' with hin | hone
      · obtain ⟨st, hst, hmap⟩ := hcov m' hin
        exact ⟨st, List.mem_append_left _ hst, hmap⟩
      · obtain rfl : m' = m := by simpa using hone
        exact ⟨bumpMapStat (initMapStat m'.map) m', by simp, rfl⟩

theorem aggInv_foldl :
    ∀ (ms2 ms1 : List MatchSummary) (acc : List MapStat),
      aggInv ms1 acc → aggInv (ms1 ++ ms2) (ms2.foldl updateMapStats acc)
  | [], ms1, acc, h => by simpa using h
  | m :: ms2, ms1, acc, h => by
    have step := aggInv_step h m
    have := aggInv_foldl ms2 (ms1 ++ [m]) (updateMapStats acc m) step
    simpa using this

theorem aggInv_base (series : List TeamSeries) :
    aggInv (allSeriesMatches series) (mapStatsBase series) := by
  rw [mapStatsBase_eq]
  have := aggInv_foldl (allSeriesMatches series) [] []
    ⟨by simp, List.Pairwise.nil, by simp⟩
  simpa using this

theorem mem_analyze_statOk {series : List TeamSeries} {st : MapStat}
    (h : st ∈ analyzeMapStatisticsFromSeries series) :
    statOk (allSeriesMatches series) st ∧ st.map ≠ "Unknown" := by
  have h1 := List.mem_filter.mp h
  have h2 := (List.perm_insertionSort
    (fun a b => b.totalMatches ≤ a.totalMatches) (mapStatsBase series)).mem_iff.mp h1.1
  refine ⟨(aggInv_base series).1 st h2, ?_⟩
  have := h1.2
  simpa using this

theorem countP_pair_le {α : Type} (l : List α) (p q r : α → Bool)
    (hp : ∀ a, p a = true → r a = true) (hq : ∀ a, q a = true → r a = true)
    (hpq : ∀ a, ¬(p a = true ∧ q a = true)) :
    l.countP p + l.countP q ≤ l.countP r := by
  induction l with
  | nil => simp [List.countP_nil]
  | cons a l ih =>
    simp only [List.countP_cons]
    have hbound : (if r a = true then 1 else 0) ≤ 1 := by
      by_cases hra : r a = true <;> simp [hra]
    by_cases hpa : p a = true <;> by_cases hqa : q a = true
    · exact absurd ⟨hpa, hqa⟩ (hpq a)
    · rw [if_pos hpa, if_neg hqa, if_pos (hp a hpa)]
      omega
    · rw [if_neg hpa, if_pos hqa, if_pos (hq a hqa)]
      omega
    · rw [if_neg hpa, if_neg hqa]
      omega

theorem computeWinRate_le_100 {w t : Nat} (h : w ≤ t) : computeWinRate w t ≤ 100 := by
  unfold computeWinRate
  split
  · next ht =>
    have h2 : 0 < 2 * t := by omega
    have := (Nat.div_lt_iff_lt_mul h2).mpr (show w * 200 + t < 101 * (2 * t) by omega)
    omega
  · omega

/-! ### Witness data for the aggregator claims -/

def wMatch (mp res : String) : MatchSummary :=
  { id := "wm", date := 0, map := mp, result := res, score := [], teams := none }

def wSeries1 : TeamSeries :=
  { id := "s1", date := 5,
    «matches» := [wMatch "de_dust2" "win", wMatch "de_dust2" "loss",
      wMatch "de_mirage" "win"],
    ourPlayers := [], totalOurPlayers := 0 }

def wSeries2 : TeamSeries :=
  { id := "s2", date := 9,
    «matches» := [wMatch "de_dust2" "win", wMatch "Unknown" "faction1"],
    ourPlayers := [], totalOurPlayers := 0 }

def wStatDust : MapStat :=
  { map := "de_dust2", totalMatches := 3, wins := 2, losses := 1, winRate := 67 }

/-- C3: for every filtered series list given to the Map Statistics Aggregator,
every entry of the output counts `totalMatches` as the number of matches
carrying its map name, counts `wins` exactly on result token "win" and
`losses` exactly on "loss" (any other token, "Unknown" included, increments
neither — the counts are over exactly those two token equalities), and its
final `winRate` is `round(wins / totalMatches * 100)`. -/
theorem claim_C3 (series : List TeamSeries) (st : MapStat)
    (hmem : st ∈ analyzeMapStatisticsFromSeries series) :
    st.totalMatches = (allSeriesMatches series).countP (fun m => m.map == st.map) ∧
    st.wins = (allSeriesMatches series).countP
      (fun m => m.map == st.map && m.result == "win") ∧
    st.losses = (allSeriesMatches series).countP
      (fun m => m.map == st.map && m.result == "loss") ∧
    st.winRate = computeWinRate st.wins st.totalMatches := by
  obtain ⟨⟨h1, h2, h3, h4, _⟩, _⟩ := mem_analyze_statOk hmem
  exact ⟨h1, h2, h3, h4⟩

theorem claim_C3_witness :
    wStatDust ∈ analyzeMapStatisticsFromSeries [wSeries1, wSeries2] ∧
    (wStatDust.totalMatches =
        (allSeriesMatches [wSeries1, wSeries2]).countP
          (fun m => m.map == wStatDust.map) ∧
      wStatDust.wins = (allSeriesMatches [wSeries1, wSeries2]).countP
        (fun m => m.map == wStatDust.map && m.result == "win") ∧
      wStatDust.losses = (allSeriesMatches [wSeries1, wSeries2]).countP
        (fun m => m.map == wStatDust.map && m.result == "loss") ∧
      wStatDust.winRate = computeWinRate wStatDust.wins wStatDust.totalMatches) :=
  ⟨by decide, claim_C3 [wSeries1, wSeries2] wStatDust (by decide)⟩

/-- C6: every MapStat entry of the aggregator's output satisfies
`wins + losses ≤ totalMatches` and `0 ≤ winRate ≤ 100`, and no entry carries
the map name "Unknown". -/
theorem claim_C6 (series : List TeamSeries) (st : MapStat)
    (hmem : st ∈ analyzeMapStatisticsFromSeries series) :
    st.wins + st.losses ≤ st.totalMatches ∧
    0 ≤ st.winRate ∧ st.winRate ≤ 100 ∧ st.map ≠ "Unknown" := by
  obtain ⟨⟨h1, h2, h3, h4, _⟩, hunk⟩ := mem_analyze_statOk hmem
  have hwl : st.wins + st.losses ≤ st.totalMatches := by
    rw [h1, h2, h3]
    refine countP_pair_le _ _ _ _
      (fun a ha => Bool.and_elim_left ha) (fun a ha => Bool.and_elim_left ha) ?_
    intro a ⟨ha1, ha2⟩
    have e1 : a.result = "win" := beq_iff_eq.mp (Bool.and_elim_right ha1)
    have e2 : a.result = "loss" := beq_iff_eq.mp (Bool.and_elim_right ha2)
    simp [e1] at e2
  have hw : st.wins ≤ st.totalMatches := by
    rw [h1, h2]
    exact List.countP_mono_left (fun a _ ha => Bool.and_elim_left ha)
  exact ⟨hwl, Nat.zero_le _, h4 ▸ computeWinRate_le_100 hw, hunk⟩

theorem claim_C6_witness :
    wStatDust ∈ analyzeMapStatisticsFromSeries [wSeries1, wSeries2] ∧
    (wStatDust.wins + wStatDust.losses ≤ wStatDust.totalMatches ∧
      0 ≤ wStatDust.winRate ∧ wStatDust.winRate ≤ 100 ∧
      wStatDust.map ≠ "Unknown") :=
  ⟨by decide, claim_C6 [wSeries1, wSeries2] wStatDust (by decide)⟩

/-- C10: every MapStat entry of the aggregator's output has
`totalMatches ≥ 1` (an entry exists only when at least one match carried its
map name), so the `winRate` division's guard never divides by zero. -/
theorem claim_C10 (series : List TeamSeries) (st : MapStat)
    (hmem : st ∈ analyzeMapStatisticsFromSeries series) :
    1 ≤ st.totalMatches :=
  (mem_analyze_statOk hmem).1.2.2.2.2

theorem claim_C10_witness :
    wStatDust ∈ analyzeMapStatisticsFromSeries [wSeries1, wSeries2] ∧
    1 ≤ wStatDust.totalMatches :=
  ⟨by decide, claim_C10 [wSeries1, wSeries2] wStatDust (by decide)⟩

/-! ### C2: map-name resolution -/

theorem splitChars_ne_nil (sep : Char) (l : List Char) : splitChars sep l ≠ [] := by
  cases l with
  | nil => simp [splitChars]
  | cons c rest =>
    unfold splitChars
    dsimp only
    split
    · exact List.cons_ne_nil _ _
    · split
      · exact List.cons_ne_nil _ _
      · exact List.cons_ne_nil _ _

theorem splitChars_de (t : List Char) :
    splitChars '_' ('d' :: 'e' :: '_' :: t) = ['d', 'e'] :: splitChars '_' t := rfl

theorem strIncludes_of_de {g : String} {t : List Char}
    (h : g.toList = 'd' :: 'e' :: '_' :: t) : strIncludes g "de_" = true := by
  unfold strIncludes
  rw [h, show "de_".toList = ['d', 'e', '_'] from rfl]
  rw [charsIncludes]
  have : startsWithChars ('d' :: 'e' :: '_' :: t) ['d', 'e', '_'] = true := by
    simp [startsWithChars]
  simp [this]

/-- The concrete voting payload refuting C2's "de_-prefixed token" sentence:
the map entity identifier `"clan_de_mirage"` contains `"de_"`, but not as its
leading token. -/
def votCex : Option Voting :=
  some { map := some { pick := none, entities := some [{ name := none, guid := some "clan_de_mirage" }] } }

/-- C2 counterexample: for the identifier "clan_de_mirage" (which contains
"de_"), `getMapName` returns "clan_de" — the first two underscore-separated
tokens — which is not a `de_`-prefixed token, refuting the claim's "whenever
the identifier contains 'de_', the returned value is the de_-prefixed token of
that identifier". -/
theorem claim_C2_counterexample :
    (entityZero votCex).bind MapEntity.guid = some "clan_de_mirage" ∧
    pickZero votCex = none ∧
    (entityZero votCex).bind MapEntity.name = none ∧
    strIncludes "clan_de_mirage" "de_" = true ∧
    getMapNameV votCex = "clan_de" ∧
    startsWithChars (getMapNameV votCex).toList "de_".toList = false := by
  refine ⟨rfl, rfl, rfl, by decide, by decide, by decide⟩

/-- C2 (amended): map name resolution follows the precedence explicit vote
pick → named map entity → map entity identifier → "Unknown"; when the
identifier contains "de_" the returned value is the identifier's first two
underscore-separated tokens joined by an underscore (not in general a
de_-prefixed token); when the identifier moreover starts with "de_", the
returned value is a de_-prefixed token. -/
theorem claim_C2_amended :
    (∀ v s, pickZero v = some s → s ≠ "" → getMapNameV v = s) ∧
    (∀ v s, jsTruthyStr (pickZero v) = false →
      (entityZero v).bind MapEntity.name = some s → s ≠ "" → getMapNameV v = s) ∧
    (∀ v g, jsTruthyStr (pickZero v) = false →
      jsTruthyStr ((entityZero v).bind MapEntity.name) = false →
      (entityZero v).bind MapEntity.guid = some g → g ≠ "" →
      (strIncludes g "de_" = true →
        getMapNameV v =
          String.mk (joinUnderscore ((splitChars '_' g.toList).take 2))) ∧
      (strIncludes g "de_" = false → getMapNameV v = g)) ∧
    (∀ v, jsTruthyStr (pickZero v) = false →
      jsTruthyStr ((entityZero v).bind MapEntity.name) = false →
      jsTruthyStr ((entityZero v).bind MapEntity.guid) = false →
      getMapNameV v = "Unknown") ∧
    (∀ v g t, jsTruthyStr (pickZero v) = false →
      jsTruthyStr ((entityZero v).bind MapEntity.name) = false →
      (entityZero v).bind MapEntity.guid = some g →
      g.toList = 'd' :: 'e' :: '_' :: t →
      ∃ tok, (getMapNameV v).toList = 'd' :: 'e' :: '_' :: tok) := by
  have hguid : ∀ v g, jsTruthyStr (pickZero v) = false →
      jsTruthyStr ((entityZero v).bind MapEntity.name) = false →
      (entityZero v).bind MapEntity.guid = some g → g ≠ "" →
      (strIncludes g "de_" = true →
        getMapNameV v =
          String.mk (joinUnderscore ((splitChars '_' g.toList).take 2))) ∧
      (strIncludes g "de_" = false → getMapNameV v = g) := by
    intro v g h1 h2 hg hgne
    have ht : jsTruthyStr ((entityZero v).bind MapEntity.guid) = true := by
      rw [hg]
      simpa [jsTruthyStr] using hgne
    constructor
    · intro hinc
      unfold getMapNameV
      rw [if_neg (by simp [h1]), if_neg (by simp [h2]), if_pos ht, hg]
      simp only [Option.getD_some]
      rw [if_pos hinc]
    · intro hinc
      unfold getMapNameV
      rw [if_neg (by simp [h1]), if_neg (by simp [h2]), if_pos ht, hg]
      simp only [Option.getD_some]
      rw [if_neg (by simp [hinc])]
  refine ⟨?_, ?_, hguid, ?_, ?_⟩
  · intro v s hp hs
    have ht : jsTruthyStr (pickZero v) = true := by
      rw [hp]
      simpa [jsTruthyStr] using hs
    unfold getMapNameV
    rw [if_pos ht, hp]
    rfl
  · intro v s h1 hn hs
    have ht : jsTruthyStr ((entityZero v).bind MapEntity.name) = true := by
      rw [hn]
      simpa [jsTruthyStr] using hs
    unfold getMapNameV
    rw [if_neg (by simp [h1]), if_pos ht, hn]
    rfl
  · intro v h1 h2 h3
    unfold getMapNameV
    rw [if_neg (by simp [h1]), if_neg (by simp [h2]), if_neg (by simp [h3])]
  · intro v g t h1 h2 hg hlist
    have hgne : g ≠ "" := by
      intro hx
      rw [hx] at hlist
      exact List.noConfusion hlist
    have hinc := strIncludes_of_de hlist
    have := (hguid v g h1 h2 hg hgne).1 hinc
    rw [this, hlist, splitChars_de]
    obtain ⟨h0, t2, ht2⟩ := List.exists_cons_of_ne_nil (splitChars_ne_nil '_' t)
    rw [ht2]
    exact ⟨h0, by simp [joinUnderscore]⟩

def votWitPick : Option Voting :=
  some { map := some { pick := some ["de_dust2"], entities := none } }

def votWitGuid : Option Voting :=
  some { map := some { pick := none, entities := some [{ name := none, guid := some "de_dust2_extra" }] } }

theorem claim_C2_amended_witness :
    getMapNameV votWitPick = "de_dust2" ∧
    (∃ tok, (getMapNameV votWitGuid).toList = 'd' :: 'e' :: '_' :: tok) :=
  ⟨claim_C2_amended.1 votWitPick "de_dust2" rfl (by decide),
   claim_C2_amended.2.2.2.2 votWitGuid "de_dust2_extra" ("dust2_extra".toList)
     rfl rfl rfl (by decide)⟩

/-! ### C7: output ordering -/

theorem mapStat_total_isTotal :
    IsTotal MapStat (fun a b => b.totalMatches ≤ a.totalMatches) :=
  ⟨fun a b => (Nat.le_total b.totalMatches a.totalMatches)⟩

theorem mapStat_total_isTrans :
    IsTrans MapStat (fun a b => b.totalMatches ≤ a.totalMatches) :=
  ⟨fun _ _ _ h1 h2 => Nat.le_trans h2 h1⟩

theorem teamSeries_date_isTotal :
    IsTotal TeamSeries (fun a b => b.date ≤ a.date) :=
  ⟨fun a b => (Nat.le_total b.date a.date)⟩

theorem teamSeries_date_isTrans :
    IsTrans TeamSeries (fun a b => b.date ≤ a.date) :=
  ⟨fun _ _ _ h1 h2 => Nat.le_trans h2 h1⟩

theorem analyze_sorted (teamSeries : List TeamSeries) :
    (analyzeMapStatisticsFromSeries teamSeries).Pairwise
      (fun a b => b.totalMatches ≤ a.totalMatches) := by
  haveI := mapStat_total_isTotal
  haveI := mapStat_total_isTrans
  have hs := List.sorted_insertionSort
    (fun (a b : MapStat) => b.totalMatches ≤ a.totalMatches) (mapStatsBase teamSeries)
  exact List.Pairwise.filter _ hs

theorem analyze_stable (teamSeries : List TeamSeries) (k : Nat) :
    (analyzeMapStatisticsFromSeries teamSeries).filter
        (fun st => st.totalMatches == k) =
      (mapStatsBase teamSeries).filter
        (fun st => st.totalMatches == k && !(st.map == "Unknown")) := by
  set r : MapStat → MapStat → Prop := fun a b => b.totalMatches ≤ a.totalMatches with hr
  set pr : MapStat → Bool := fun st => st.totalMatches == k && !(st.map == "Unknown")
    with hpr
  set base := mapStatsBase teamSeries with hbase
  have hsubbase : List.Sublist (base.filter pr) base := List.filter_sublist base
  have hpair : (base.filter pr).Pairwise r := by
    refine List.pairwise_of_forall_mem_list ?_
    intro a ha b hb
    have ha2 := (List.mem_filter.mp ha).2
    have hb2 := (List.mem_filter.mp hb).2
    have hak : a.totalMatches = k := by
      have := Bool.and_elim_left ha2
      exact beq_iff_eq.mp this
    have hbk : b.totalMatches = k := by
      have := Bool.and_elim_left hb2
      exact beq_iff_eq.mp this
    rw [hr]
    omega
  have hstable : List.Sublist (base.filter pr) (base.insertionSort r) :=
    List.sublist_insertionSort hpair hsubbase
  have hall : ∀ x ∈ base.filter pr, pr x = true := fun x hx => (List.mem_filter.mp hx).2
  have hidem : (base.filter pr).filter pr = base.filter pr :=
    List.filter_eq_self.mpr hall
  have hsub2 : List.Sublist (base.filter pr) ((base.insertionSort r).filter pr) := by
    have := List.Sublist.filter pr hstable
    rwa [hidem] at this
  have hlen : ((base.insertionSort r).filter pr).length = (base.filter pr).length := by
    rw [← List.countP_eq_length_filter, ← List.countP_eq_length_filter]
    exact (List.perm_insertionSort r base).countP_eq pr
  have hmain : base.filter pr = (base.insertionSort r).filter pr :=
    List.Sublist.eq_of_length hsub2 hlen.symm
  have hff : (analyzeMapStatisticsFromSeries teamSeries).filter
      (fun st => st.totalMatches == k) = (base.insertionSort r).filter pr := by
    unfold analyzeMapStatisticsFromSeries
    rw [List.filter_filter]
  rw [hff, ← hmain]

/-- C7: the report's `mapStatistics` is sorted by `totalMatches` descending
with ties keeping first-encounter order (each totalMatches-class of the output
equals the corresponding class of the pre-sort accumulator, minus "Unknown"),
and `recentSeries` has length at most 10 and is sorted by date descending. -/
theorem claim_C7 (players : List String) (allFound : Nat) (sm : List Series)
    (teamSeries : List TeamSeries) :
    (composeReport players allFound sm teamSeries).mapStatistics.Pairwise
      (fun a b => b.totalMatches ≤ a.totalMatches) ∧
    (∀ k : Nat,
      (composeReport players allFound sm teamSeries).mapStatistics.filter
          (fun st => st.totalMatches == k) =
        (mapStatsBase teamSeries).filter
          (fun st => st.totalMatches == k && !(st.map == "Unknown"))) ∧
    (composeReport players allFound sm teamSeries).recentSeries.length ≤ 10 ∧
    (composeReport players allFound sm teamSeries).recentSeries.Pairwise
      (fun a b => b.date ≤ a.date) := by
  refine ⟨analyze_sorted teamSeries, fun k => analyze_stable teamSeries k, ?_, ?_⟩
  · show (recentSeriesOf teamSeries).length ≤ 10
    unfold recentSeriesOf
    rw [List.length_map, List.length_take]
    omega
  · show (recentSeriesOf teamSeries).Pairwise (fun a b => b.date ≤ a.date)
    unfold recentSeriesOf
    haveI := teamSeries_date_isTotal
    haveI := teamSeries_date_isTrans
    have hs := List.sorted_insertionSort
      (fun (a b : TeamSeries) => b.date ≤ a.date) teamSeries
    have htake : ((teamSeries.insertionSort
        (fun a b => b.date ≤ a.date)).take 10).Pairwise
        (fun a b => b.date ≤ a.date) :=
      hs.sublist (List.take_sublist _ _)
    rw [List.pairwise_map]
    exact htake.imp (fun h => h)

/-! ### C4: history collection window and pagination stop -/

theorem insertMatch_cutoff {cutoff : Nat} {coll : MatchColl}
    (h : ∀ e ∈ coll, cutoff ≤ e.2.finished_at) {it : HistItem}
    (hit : cutoff ≤ it.finished_at) :
    ∀ e ∈ insertMatch coll it, cutoff ≤ e.2.finished_at := by
  intro e he
  unfold insertMatch at he
  by_cases hk : mapHasKey coll it.match_id = true
  · rw [if_pos hk] at he
    exact h e he
  · rw [if_neg hk] at he
    rcases List.mem_append.mp he with h1 | h2
    · exact h e h1
    · have : e.2.finished_at = it.finished_at := by
        obtain rfl : e = (it.match_id,
            { id := it.match_id, date := it.finished_at, finished_at := it.finished_at,
              teams := it.teams, results := it.results, voting := it.voting }) := by
          simpa using h2
        rfl
      rw [this]
      exact hit

theorem processItems_cutoff (cutoff : Nat) :
    ∀ (items : List HistItem) (coll : MatchColl),
      (∀ e ∈ coll, cutoff ≤ e.2.finished_at) →
      ∀ e ∈ (processItems cutoff items coll).1, cutoff ≤ e.2.finished_at
  | [], _, h => h
  | it :: rest, coll, h => by
    unfold processItems
    by_cases hc : it.finished_at < cutoff
    · rw [if_pos hc]
      exact h
    · rw [if_neg hc]
      exact processItems_cutoff cutoff rest (insertMatch coll it)
        (insertMatch_cutoff h (Nat.le_of_not_lt hc))

theorem collectForPlayer_cutoff (cutoff : Nat) :
    ∀ (resps : List PageResp) (offset : Nat) (coll : MatchColl),
      (∀ e ∈ coll, cutoff ≤ e.2.finished_at) →
      ∀ e ∈ collectForPlayer cutoff resps offset coll, cutoff ≤ e.2.finished_at
  | [], _, _, h => h
  | PageResp.fail :: _, _, _, h => h
  | PageResp.page pd :: rest, offset, coll, h => by
    unfold collectForPlayer
    cases hitems : pd.items with
    | none => exact h
    | some items =>
      cases items with
      | nil => exact h
      | cons it its =>
        show ∀ e ∈ (match processItems cutoff (it :: its) coll with
          | (coll2, true) => coll2
          | (coll2, false) =>
            if pd.endOffset ≤ offset + 100 then coll2
            else collectForPlayer cutoff rest (offset + 100) coll2),
          cutoff ≤ e.2.finished_at
        rcases hp : processItems cutoff (it :: its) coll with ⟨coll2, flag⟩
        have hpi : ∀ e ∈ coll2, cutoff ≤ e.2.finished_at := by
          have hx := processItems_cutoff cutoff (it :: its) coll h
          rw [hp] at hx
          exact hx
        cases flag with
        | true => exact hpi
        | false =>
          show ∀ e ∈ (if pd.endOffset ≤ offset + 100 then coll2
              else collectForPlayer cutoff rest (offset + 100) coll2),
            cutoff ≤ e.2.finished_at
          by_cases hoff : pd.endOffset ≤ offset + 100
          · rw [if_pos hoff]
            exact hpi
          · rw [if_neg hoff]
            exact collectForPlayer_cutoff cutoff rest (offset + 100) coll2 hpi

theorem collectMatches_cutoff (cutoff : Nat) (histories : List (List PageResp)) :
    ∀ e ∈ collectMatches cutoff histories, cutoff ≤ e.2.finished_at := by
  unfold collectMatches
  suffices hgen : ∀ (hs : List (List PageResp)) (coll : MatchColl),
      (∀ e ∈ coll, cutoff ≤ e.2.finished_at) →
      ∀ e ∈ hs.foldl (fun coll resps => collectForPlayer cutoff resps 0 coll) coll,
        cutoff ≤ e.2.finished_at by
    exact hgen histories [] (by simp)
  intro hs
  induction hs with
  | nil => intro coll h; exact h
  | cons resps rest ih =>
    intro coll h
    exact ih (collectForPlayer cutoff resps 0 coll)
      (collectForPlayer_cutoff cutoff resps 0 coll h)

theorem processItems_stop (cutoff : Nat) :
    ∀ (xs : List HistItem) (old : HistItem) (ys : List HistItem) (coll : MatchColl),
      (∀ it ∈ xs, cutoff ≤ it.finished_at) → old.finished_at < cutoff →
      processItems cutoff (xs ++ old :: ys) coll = (xs.foldl insertMatch coll, true)
  | [], old, ys, coll, _, hold => by
    simp only [List.nil_append, List.foldl_nil]
    unfold processItems
    rw [if_pos hold]
  | x :: xs, old, ys, coll, hxs, hold => by
    have hx : ¬ x.finished_at < cutoff := Nat.not_lt.mpr (hxs x (by simp))
    simp only [List.cons_append, List.foldl_cons]
    unfold processItems
    rw [if_neg hx]
    exact processItems_stop cutoff xs old ys (insertMatch coll x)
      (fun it hit => hxs it (by simp [hit])) hold

theorem collectForPlayer_page_cons (cutoff : Nat) (pd : PageData)
    (rest : List PageResp) (offset : Nat) (coll : MatchColl) (it : HistItem)
    (its : List HistItem) (hitems : pd.items = some (it :: its)) :
    collectForPlayer cutoff (PageResp.page pd :: rest) offset coll =
      match processItems cutoff (it :: its) coll with
      | (coll2, true) => coll2
      | (coll2, false) =>
        if pd.endOffset ≤ offset + 100 then coll2
        else collectForPlayer cutoff rest (offset + 100) coll2 := by
  conv_lhs => rw [collectForPlayer, hitems]

/-- The first below-cutoff match stops the whole pagination for the player:
the remaining entries of the page and all later pages are ignored. -/
theorem collectForPlayer_stop (cutoff : Nat) (pd : PageData)
    (rest : List PageResp) (offset : Nat) (coll : MatchColl) (xs : List HistItem)
    (old : HistItem) (ys : List HistItem)
    (hitems : pd.items = some (xs ++ old :: ys))
    (hxs : ∀ it ∈ xs, cutoff ≤ it.finished_at) (hold : old.finished_at < cutoff) :
    collectForPlayer cutoff (PageResp.page pd :: rest) offset coll =
      xs.foldl insertMatch coll := by
  have hshape : ∃ it its, xs ++ old :: ys = it :: its := by
    cases xs with
    | nil => exact ⟨old, ys, rfl⟩
    | cons x xs2 => exact ⟨x, xs2 ++ old :: ys, rfl⟩
  obtain ⟨it, its, heq⟩ := hshape
  rw [collectForPlayer_page_cons cutoff pd rest offset coll it its
    (by rw [hitems, heq])]
  rw [← heq, processItems_stop cutoff xs old ys coll hxs hold]

/-- C4: every match the History Collector stores has `finished_at` no earlier
than the cutoff; within a page the first match older than the cutoff stops
processing, discarding it and all later entries of the page; and the player's
pagination stops there, so a page of in-window matches `xs` followed by an
older match yields exactly the insertions of `xs` regardless of what follows. -/
theorem claim_C4 (cutoff : Nat) (histories : List (List PageResp))
    (pd : PageData) (rest : List PageResp) (offset : Nat)
    (xs : List HistItem) (old : HistItem) (ys : List HistItem) (coll : MatchColl)
    (hpd : pd.items = some (xs ++ old :: ys))
    (hxs : ∀ it ∈ xs, cutoff ≤ it.finished_at) (hold : old.finished_at < cutoff) :
    (∀ e ∈ collectMatches cutoff histories, cutoff ≤ e.2.finished_at) ∧
    processItems cutoff (xs ++ old :: ys) coll = (xs.foldl insertMatch coll, true) ∧
    collectForPlayer cutoff (PageResp.page pd :: rest) offset coll =
      xs.foldl insertMatch coll :=
  ⟨collectMatches_cutoff cutoff histories,
   processItems_stop cutoff xs old ys coll hxs hold,
   collectForPlayer_stop cutoff pd rest offset coll xs old ys hpd hxs hold⟩

def wHist (i : String) (t : Nat) : HistItem :=
  { match_id := i, finished_at := t, teams := none, results := none, voting := none }

def wPage : PageData :=
  { items := some [wHist "a" 150, wHist "b" 120, wHist "c" 50], endOffset := 300 }

theorem claim_C4_witness :
    (∀ it ∈ [wHist "a" 150, wHist "b" 120], (100 : Nat) ≤ it.finished_at) ∧
    (wHist "c" 50).finished_at < 100 ∧
    (∀ e ∈ collectMatches 100 [[PageResp.page wPage]], 100 ≤ e.2.finished_at) ∧
    processItems 100 ([wHist "a" 150, wHist "b" 120] ++ wHist "c" 50 :: []) [] =
      ([wHist "a" 150, wHist "b" 120].foldl insertMatch [], true) ∧
    collectForPlayer 100 (PageResp.page wPage :: []) 0 [] =
      [wHist "a" 150, wHist "b" 120].foldl insertMatch [] := by
  have h := claim_C4 100 [[PageResp.page wPage]] wPage [] 0
    [wHist "a" 150, wHist "b" 120] (wHist "c" 50) [] [] rfl (by decide) (by decide)
  exact ⟨by decide, by decide, h.1, h.2.1, h.2.2⟩

/-! ### C5: Team Filter -/

theorem contains_mem {l : List String} {x : String} : l.contains x = true ↔ x ∈ l := by
  rw [show l.contains x = List.elem x l from rfl]
  exact List.elem_iff

/-- All player entries across the matches of a series. -/
def seriesPlayers (s : Series) : List MatchPlayer :=
  (s.«matches».map getPlayersFromMatch).flatten

/-- The roster nicknames appearing across the series, with multiplicity. -/
def filteredNicknames (s : Series) (teamPlayerNames : List String) : List String :=
  ((seriesPlayers s).map MatchPlayer.nickname).filter
    (fun n => teamPlayerNames.contains n)

/-- The claim's "set of distinct roster nicknames appearing across all matches
of the series". -/
def seriesRosterSet (s : Series) (teamPlayerNames : List String) : Finset String :=
  (filteredNicknames s teamPlayerNames).toFinset

theorem mem_addToSet {acc : List String} {y x : String} :
    x ∈ addToSet acc y ↔ x ∈ acc ∨ x = y := by
  unfold addToSet
  by_cases hc : acc.contains y = true
  · rw [if_pos hc]
    constructor
    · exact Or.inl
    · rintro (h | rfl)
      · exact h
      · exact contains_mem.mp hc
  · rw [if_neg hc]
    simp

theorem nodup_addToSet {acc : List String} (h : acc.Nodup) (y : String) :
    (addToSet acc y).Nodup := by
  unfold addToSet
  by_cases hc : acc.contains y = true
  · rwa [if_pos hc]
  · rw [if_neg hc]
    have : y ∉ acc := fun hy => hc (contains_mem.mpr hy)
    simp [List.nodup_append, h, this]

theorem mem_foldl_addToSet :
    ∀ (xs acc : List String) (x : String),
      x ∈ xs.foldl addToSet acc ↔ x ∈ acc ∨ x ∈ xs
  | [], acc, x => by simp
  | y :: xs, acc, x => by
    rw [List.foldl_cons, mem_foldl_addToSet xs (addToSet acc y) x, mem_addToSet]
    simp only [List.mem_cons]
    constructor
    · rintro ((h | rfl) | h)
      · exact Or.inl h
      · exact Or.inr (Or.inl rfl)
      · exact Or.inr (Or.inr h)
    · rintro (h | rfl | h)
      · exact Or.inl (Or.inl h)
      · exact Or.inl (Or.inr rfl)
      · exact Or.inr h

theorem nodup_foldl_addToSet :
    ∀ (xs acc : List String), acc.Nodup → (xs.foldl addToSet acc).Nodup
  | [], _, h => h
  | y :: xs, acc, h =>
    nodup_foldl_addToSet xs (addToSet acc y) (nodup_addToSet h y)

theorem inner_fold_eq (teamPlayerNames : List String) :
    ∀ (ps : List MatchPlayer) (acc : List String),
      ps.foldl (fun acc2 p =>
        if teamPlayerNames.contains p.nickname then addToSet acc2 p.nickname
        else acc2) acc =
      ((ps.map MatchPlayer.nickname).filter
        (fun n => teamPlayerNames.contains n)).foldl addToSet acc
  | [], _ => rfl
  | p :: ps, acc => by
    rw [List.foldl_cons, List.map_cons, List.filter_cons]
    by_cases hc : teamPlayerNames.contains p.nickname = true
    · rw [if_pos hc, if_pos hc, List.foldl_cons]
      exact inner_fold_eq teamPlayerNames ps (addToSet acc p.nickname)
    · rw [if_neg hc, if_neg hc]
      exact inner_fold_eq teamPlayerNames ps acc

theorem getOurPlayers_eq_foldl (s : Series) (teamPlayerNames : List String) :
    getOurPlayersInSeries s teamPlayerNames =
      (filteredNicknames s teamPlayerNames).foldl addToSet [] := by
  unfold getOurPlayersInSeries filteredNicknames seriesPlayers
  suffices hgen : ∀ (ms : List MatchSummary) (acc : List String),
      ms.foldl (fun acc m =>
        (getPlayersFromMatch m).foldl (fun acc2 p =>
          if teamPlayerNames.contains p.nickname then addToSet acc2 p.nickname
          else acc2) acc) acc =
      (((ms.map getPlayersFromMatch).flatten.map MatchPlayer.nickname).filter
        (fun n => teamPlayerNames.contains n)).foldl addToSet acc by
    exact hgen s.«matches» []
  intro ms
  induction ms with
  | nil => intro acc; rfl
  | cons m ms ih =>
    intro acc
    rw [List.foldl_cons, ih, List.map_cons, List.flatten_cons, List.map_append,
      List.filter_append, List.foldl_append, inner_fold_eq]

theorem getOurPlayers_nodup (s : Series) (teamPlayerNames : List String) :
    (getOurPlayersInSeries s teamPlayerNames).Nodup := by
  rw [getOurPlayers_eq_foldl]
  exact nodup_foldl_addToSet _ _ List.nodup_nil

theorem getOurPlayers_toFinset (s : Series) (teamPlayerNames : List String) :
    (getOurPlayersInSeries s teamPlayerNames).toFinset =
      seriesRosterSet s teamPlayerNames := by
  apply Finset.ext
  intro x
  rw [List.mem_toFinset, getOurPlayers_eq_foldl, mem_foldl_addToSet]
  unfold seriesRosterSet
  rw [List.mem_toFinset]
  simp

theorem getOurPlayers_length (s : Series) (teamPlayerNames : List String) :
    (getOurPlayersInSeries s teamPlayerNames).length =
      (seriesRosterSet s teamPlayerNames).card := by
  rw [← getOurPlayers_toFinset,
    List.toFinset_card_of_nodup (getOurPlayers_nodup s teamPlayerNames)]

theorem teamFilter_eq (seriesList : List Series) (teamPlayerNames : List String) :
    teamFilter seriesList teamPlayerNames =
      (seriesList.filter (fun s =>
        decide (5 ≤ (getOurPlayersInSeries s teamPlayerNames).length))).map
        (fun s => mkTeamSeries s (getOurPlayersInSeries s teamPlayerNames)) := by
  unfold teamFilter
  suffices hgen : ∀ (l : List Series) (acc : List TeamSeries),
      l.foldl (fun acc s =>
        let ours := getOurPlayersInSeries s teamPlayerNames
        if 5 ≤ ours.length then acc ++ [mkTeamSeries s ours] else acc) acc =
      acc ++ (l.filter (fun s =>
        decide (5 ≤ (getOurPlayersInSeries s teamPlayerNames).length))).map
        (fun s => mkTeamSeries s (getOurPlayersInSeries s teamPlayerNames)) by
    simpa using hgen seriesList []
  intro l
  induction l with
  | nil => intro acc; simp
  | cons s l ih =>
    intro acc
    rw [List.foldl_cons, List.filter_cons]
    by_cases hlen : 5 ≤ (getOurPlayersInSeries s teamPlayerNames).length
    · rw [if_pos hlen, ih, if_pos (by simpa using hlen)]
      simp
    · rw [if_neg hlen, ih, if_neg (by simpa using hlen)]

/-- C5: the Team Filter keeps a series exactly when at least five distinct
roster nicknames appear across its matches, and every kept series has
`totalOurPlayers = |ourPlayers| ≥ 5` with `ourPlayers` duplicate-free. -/
theorem claim_C5 (seriesList : List Series) (teamPlayerNames : List String) :
    (∀ s ∈ seriesList,
      (mkTeamSeries s (getOurPlayersInSeries s teamPlayerNames) ∈
          teamFilter seriesList teamPlayerNames ↔
        5 ≤ (seriesRosterSet s teamPlayerNames).card)) ∧
    (∀ t ∈ teamFilter seriesList teamPlayerNames,
      t.totalOurPlayers = t.ourPlayers.length ∧ t.ourPlayers.Nodup ∧
      5 ≤ t.totalOurPlayers) := by
  constructor
  · intro s hs
    rw [teamFilter_eq]
    constructor
    · intro hmem
      obtain ⟨s', hs', heq⟩ := List.mem_map.mp hmem
      have e1 : s'.id = s.id := congrArg TeamSeries.id heq
      have e2 : s'.date = s.date := congrArg TeamSeries.date heq
      have e3 : s'.«matches» = s.«matches» := congrArg TeamSeries.«matches» heq
      have hss : s' = s := by
        cases s'
        cases s
        simp only at e1 e2 e3
        subst e1
        subst e2
        subst e3
        rfl
      subst hss
      have hdec := (List.mem_filter.mp hs').2
      have hlen : 5 ≤ (getOurPlayersInSeries s' teamPlayerNames).length :=
        of_decide_eq_true hdec
      rwa [getOurPlayers_length] at hlen
    · intro hcard
      have hlen : 5 ≤ (getOurPlayersInSeries s teamPlayerNames).length := by
        rw [getOurPlayers_length]
        exact hcard
      exact List.mem_map_of_mem _
        (List.mem_filter.mpr ⟨hs, decide_eq_true hlen⟩)
  · intro t ht
    rw [teamFilter_eq] at ht
    obtain ⟨s', hs', rfl⟩ := List.mem_map.mp ht
    refine ⟨rfl, getOurPlayers_nodup s' teamPlayerNames, ?_⟩
    have hdec := (List.mem_filter.mp hs').2
    exact of_decide_eq_true hdec

def wTeamsMatch : MatchSummary :=
  { id := "tm", date := 0, map := "de_dust2", result := "win", score := [],
    teams := some [{ team_id := "t1", players := some [{ nickname := "p1" }, { nickname := "p2" }, { nickname := "p3" }, { nickname := "p4" }, { nickname := "p5" }] }] }

def wSeries5 : Series :=
  { id := "ws", date := 0, «matches» := [wTeamsMatch] }

def wNames : List String := ["p1", "p2", "p3", "p4", "p5"]

theorem claim_C5_witness :
    wSeries5 ∈ [wSeries5] ∧
    (mkTeamSeries wSeries5 (getOurPlayersInSeries wSeries5 wNames) ∈
        teamFilter [wSeries5] wNames ↔
      5 ≤ (seriesRosterSet wSeries5 wNames).card) :=
  ⟨by decide, (claim_C5 [wSeries5] wNames).1 wSeries5 (by decide)⟩

/-! ### Reconstructor helper lemmas (mapSet, findSeriesMatches) -/

theorem mem_mapSet_self {α : Type} (mp : List (String × α)) (k : String) (v : α) :
    (k, v) ∈ mapSet mp k v := by
  unfold mapSet
  by_cases h : mapHasKey mp k = true
  · rw [if_pos h]
    obtain ⟨kv, hkv, hbeq⟩ := List.any_eq_true.mp h
    refine List.mem_map.mpr ⟨kv, hkv, ?_⟩
    rw [if_pos hbeq]
  · rw [if_neg h]
    simp

theorem mem_mapSet_of_ne {α : Type} {mp : List (String × α)} {k0 : String} {v0 : α}
    (h : (k0, v0) ∈ mp) {k : String} (hne : k0 ≠ k) (v : α) :
    (k0, v0) ∈ mapSet mp k v := by
  unfold mapSet
  by_cases hk : mapHasKey mp k = true
  · rw [if_pos hk]
    refine List.mem_map.mpr ⟨(k0, v0), h, ?_⟩
    rw [if_neg (by simpa using hne)]
  · rw [if_neg hk]
    exact List.mem_append_left _ h

theorem mem_mapSet_elim {α : Type} {mp : List (String × α)} {k : String} {v : α}
    {e : String × α} (h : e ∈ mapSet mp k v) : e ∈ mp ∨ e = (k, v) := by
  unfold mapSet at h
  by_cases hk : mapHasKey mp k = true
  · rw [if_pos hk] at h
    obtain ⟨kv, hkv, heq⟩ := List.mem_map.mp h
    by_cases hb : (kv.1 == k) = true
    · rw [if_pos hb] at heq
      exact Or.inr heq.symm
    · rw [if_neg hb] at heq
      exact Or.inl (heq ▸ hkv)
  · rw [if_neg hk] at h
    rcases List.mem_append.mp h with h1 | h2
    · exact Or.inl h1
    · exact Or.inr (by simpa using h2)

theorem mapHasKey_of_mem {α : Type} {mp : List (String × α)} {k : String} {v : α}
    (h : (k, v) ∈ mp) : mapHasKey mp k = true :=
  List.any_eq_true.mpr ⟨(k, v), h, by simp⟩

/-- The per-member push of `findSeriesMatches` as a partial function. -/
def fsmPush (oracle : DetailOracle) (av : List String) (mid : String) :
    Option MatchSummary :=
  if av.contains mid then (oracle mid).map (detailSummary mid) else none

theorem fsm_fold_eq (oracle : DetailOracle) (av : List String) :
    ∀ (mids : List String) (acc : List MatchSummary),
      mids.foldl (fun acc matchId =>
        if av.contains matchId then
          match oracle matchId with
          | some matchDetails => acc ++ [detailSummary matchId matchDetails]
          | none => acc
        else acc) acc = acc ++ mids.filterMap (fsmPush oracle av)
  | [], acc => by simp
  | mid :: mids, acc => by
    by_cases hc : av.contains mid = true
    · cases ho : oracle mid with
      | some md =>
        have hpush : fsmPush oracle av mid = some (detailSummary mid md) := by
          unfold fsmPush
          rw [if_pos hc, ho]
          rfl
        simp only [List.foldl_cons, if_pos hc, ho, List.filterMap_cons, hpush]
        rw [fsm_fold_eq oracle av mids (acc ++ [detailSummary mid md])]
        simp
      | none =>
        have hpush : fsmPush oracle av mid = none := by
          unfold fsmPush
          rw [if_pos hc, ho]
          rfl
        simp only [List.foldl_cons, if_pos hc, ho, List.filterMap_cons, hpush]
        exact fsm_fold_eq oracle av mids acc
    · have hpush : fsmPush oracle av mid = none := by
        unfold fsmPush
        rw [if_neg hc]
      simp only [List.foldl_cons, if_neg hc, List.filterMap_cons, hpush]
      exact fsm_fold_eq oracle av mids acc

theorem findSeriesMatches_none {oracle : DetailOracle} {sid : String}
    (av : List String) (ho : oracle sid = none) :
    findSeriesMatches oracle sid av = [] := by
  unfold findSeriesMatches
  simp only [ho]
  rfl

theorem findSeriesMatches_noMem {oracle : DetailOracle} {sid : String}
    (av : List String) {d : Detail} (ho : oracle sid = some d)
    (hm : d.«matches» = none) :
    findSeriesMatches oracle sid av = [] := by
  unfold findSeriesMatches
  simp only [ho, hm]
  rfl

theorem findSeriesMatches_eq_some {oracle : DetailOracle} {sid : String}
    (av : List String) {d : Detail} (ho : oracle sid = some d)
    {mem : List String} (hm : d.«matches» = some mem) :
    findSeriesMatches oracle sid av =
      (mem.filterMap (fsmPush oracle av)).insertionSort
        (fun a b => a.date ≤ b.date) := by
  unfold findSeriesMatches
  simp only [ho, hm]
  rw [fsm_fold_eq oracle av mem []]
  simp

theorem mem_findSeriesMatches {oracle : DetailOracle} {sid : String}
    {av : List String} {mm : MatchSummary} :
    mm ∈ findSeriesMatches oracle sid av ↔
      ∃ d, oracle sid = some d ∧ ∃ mem, d.«matches» = some mem ∧
        ∃ mid md, mid ∈ mem ∧ av.contains mid = true ∧ oracle mid = some md ∧
          mm = detailSummary mid md := by
  cases ho : oracle sid with
  | none =>
    rw [findSeriesMatches_none av ho]
    simp
  | some d =>
    cases hm : d.«matches» with
    | none =>
      rw [findSeriesMatches_noMem av ho hm]
      simp only [List.not_mem_nil, false_iff]
      rintro ⟨d', hd', mem', hmem', -⟩
      obtain rfl : d = d' := Option.some.inj hd'
      rw [hm] at hmem'
      exact Option.noConfusion hmem'
    | some mem =>
      rw [findSeriesMatches_eq_some av ho hm, List.mem_insertionSort,
        List.mem_filterMap]
      constructor
      · rintro ⟨mid, hmid, hpush⟩
        unfold fsmPush at hpush
        by_cases hc : av.contains mid = true
        · rw [if_pos hc] at hpush
          obtain ⟨md, hmd, rfl⟩ := Option.map_eq_some'.mp hpush
          exact ⟨d, rfl, mem, hm, mid, md, hmid, hc, hmd, rfl⟩
        · rw [if_neg hc] at hpush
          exact absurd hpush Option.noConfusion
      · rintro ⟨d', hd', mem', hmem', mid, md, hmid, hc, hmd, rfl⟩
        obtain rfl : d = d' := Option.some.inj hd'
        rw [hm] at hmem'
        obtain rfl : mem = mem' := Option.some.inj hmem'
        refine ⟨mid, hmid, ?_⟩
        unfold fsmPush
        rw [if_pos hc, hmd]
        rfl

/-! ### groupStep evaluation lemmas -/

theorem groupStep_skip {oracle : DetailOracle} {av : List String}
    {s : List (String × Series)} {m : RawMatch}
    (h : ((s.map Prod.snd).any (fun ser => seriesContainsId ser m.id)) = true) :
    groupStep oracle av s m = s := by
  unfold groupStep
  rw [if_pos h]

theorem groupStep_standalone_ofNone {oracle : DetailOracle} {av : List String}
    {s : List (String × Series)} {m : RawMatch}
    (hskip : ((s.map Prod.snd).any (fun ser => seriesContainsId ser m.id)) = false)
    (ho : oracle m.id = none) :
    groupStep oracle av s m = mapSet s m.id (standaloneSeries m) := by
  unfold groupStep
  rw [if_neg (by simp [hskip])]
  simp only [ho]

theorem groupStep_standalone_ofNoParent {oracle : DetailOracle} {av : List String}
    {s : List (String × Series)} {m : RawMatch} {d : Detail}
    (hskip : ((s.map Prod.snd).any (fun ser => seriesContainsId ser m.id)) = false)
    (ho : oracle m.id = some d) (hpt : jsTruthyStr d.parent_match_id = false) :
    groupStep oracle av s m = mapSet s m.id (standaloneSeries m) := by
  unfold groupStep
  rw [if_neg (by simp [hskip])]
  simp only [ho]
  rw [if_neg (by simp [hpt])]

theorem groupStep_parent_has {oracle : DetailOracle} {av : List String}
    {s : List (String × Series)} {m : RawMatch} {d : Detail}
    (hskip : ((s.map Prod.snd).any (fun ser => seriesContainsId ser m.id)) = false)
    (ho : oracle m.id = some d) (hpt : jsTruthyStr d.parent_match_id = true)
    (hk : mapHasKey s (d.parent_match_id.getD "") = true) :
    groupStep oracle av s m = s := by
  unfold groupStep
  rw [if_neg (by simp [hskip])]
  simp only [ho]
  rw [if_pos hpt, if_pos hk]

theorem groupStep_parent_new_nil {oracle : DetailOracle} {av : List String}
    {s : List (String × Series)} {m : RawMatch} {d : Detail}
    (hskip : ((s.map Prod.snd).any (fun ser => seriesContainsId ser m.id)) = false)
    (ho : oracle m.id = some d) (hpt : jsTruthyStr d.parent_match_id = true)
    (hk : mapHasKey s (d.parent_match_id.getD "") = false)
    (hfs : findSeriesMatches oracle (d.parent_match_id.getD "") av = []) :
    groupStep oracle av s m = s := by
  unfold groupStep
  rw [if_neg (by simp [hskip])]
  simp only [ho]
  rw [if_pos hpt, if_neg (by simp [hk])]
  simp only [hfs]

theorem groupStep_parent_new_cons {oracle : DetailOracle} {av : List String}
    {s : List (String × Series)} {m : RawMatch} {d : Detail}
    (hskip : ((s.map Prod.snd).any (fun ser => seriesContainsId ser m.id)) = false)
    (ho : oracle m.id = some d) (hpt : jsTruthyStr d.parent_match_id = true)
    (hk : mapHasKey s (d.parent_match_id.getD "") = false)
    {first : MatchSummary} {rest : List MatchSummary}
    (hfs : findSeriesMatches oracle (d.parent_match_id.getD "") av = first :: rest) :
    groupStep oracle av s m =
      mapSet s (d.parent_match_id.getD "")
        { id := d.parent_match_id.getD "", date := first.date,
          «matches» := first :: rest } := by
  unfold groupStep
  rw [if_neg (by simp [hskip])]
  simp only [ho]
  rw [if_pos hpt, if_neg (by simp [hk])]
  simp only [hfs]

/-! ### C8: failed detail fetch demotes to standalone -/

theorem seriesContainsId_standalone (m : RawMatch) (mid : String) :
    seriesContainsId (standaloneSeries m) mid = (m.id == mid) := by
  simp [seriesContainsId, standaloneSeries, rawSummary]

theorem groupStep_no_failed {oracle : DetailOracle} {av : List String}
    {s : List (String × Series)} {mid : String}
    (hno : ∀ e ∈ s, seriesContainsId e.2 mid = false)
    (hfail : oracle mid = none) {m : RawMatch} (hne : m.id ≠ mid) :
    ∀ e ∈ groupStep oracle av s m, seriesContainsId e.2 mid = false := by
  have hstandalone : ∀ e ∈ mapSet s m.id (standaloneSeries m),
      seriesContainsId e.2 mid = false := by
    intro e he
    rcases mem_mapSet_elim he with h1 | rfl
    · exact hno e h1
    · show seriesContainsId (standaloneSeries m) mid = false
      rw [seriesContainsId_standalone]
      exact beq_eq_false_iff_ne.mpr hne
  by_cases hskip : ((s.map Prod.snd).any (fun ser => seriesContainsId ser m.id)) = true
  · rw [groupStep_skip hskip]
    exact hno
  · have hskip' : ((s.map Prod.snd).any (fun ser => seriesContainsId ser m.id)) = false := by
      simpa using hskip
    cases ho : oracle m.id with
    | none =>
      rw [groupStep_standalone_ofNone hskip' ho]
      exact hstandalone
    | some d =>
      by_cases hpt : jsTruthyStr d.parent_match_id = true
      · by_cases hk : mapHasKey s (d.parent_match_id.getD "") = true
        · rw [groupStep_parent_has hskip' ho hpt hk]
          exact hno
        · have hk' : mapHasKey s (d.parent_match_id.getD "") = false := by
            simpa using hk
          cases hfs : findSeriesMatches oracle (d.parent_match_id.getD "") av with
          | nil =>
            rw [groupStep_parent_new_nil hskip' ho hpt hk' hfs]
            exact hno
          | cons first rest =>
            rw [groupStep_parent_new_cons hskip' ho hpt hk' hfs]
            intro e he
            rcases mem_mapSet_elim he with h1 | rfl
            · exact hno e h1
            · show ((first :: rest).any (fun mm => mm.id == mid)) = false
              rw [Bool.eq_false_iff]
              intro hany
              obtain ⟨mm, hmm, hbeq⟩ := List.any_eq_true.mp hany
              have hmm2 : mm ∈ findSeriesMatches oracle (d.parent_match_id.getD "") av := by
                rw [hfs]
                exact hmm
              obtain ⟨_, _, _, _, mid', md, _, _, hmd, rfl⟩ :=
                mem_findSeriesMatches.mp hmm2
              have : mid' = mid := beq_iff_eq.mp hbeq
              rw [this] at hmd
              rw [hfail] at hmd
              exact Option.noConfusion hmd
      · have hpt' : jsTruthyStr d.parent_match_id = false := by simpa using hpt
        rw [groupStep_standalone_ofNoParent hskip' ho hpt']
        exact hstandalone

theorem fold_no_failed (oracle : DetailOracle) (av : List String) {mid : String}
    (hfail : oracle mid = none) :
    ∀ (l : List RawMatch) (s : List (String × Series)),
      (∀ x ∈ l, x.id ≠ mid) →
      (∀ e ∈ s, seriesContainsId e.2 mid = false) →
      ∀ e ∈ l.foldl (groupStep oracle av) s, seriesContainsId e.2 mid = false
  | [], _, _, hno => hno
  | m :: l, s, hl, hno =>
    fold_no_failed oracle av hfail l (groupStep oracle av s m)
      (fun x hx => hl x (List.mem_cons_of_mem _ hx))
      (groupStep_no_failed hno hfail (hl m (List.mem_cons_self _ _)))

theorem groupStep_keeps {oracle : DetailOracle} {av : List String}
    {s : List (String × Series)} {m0 : RawMatch}
    (hin : (m0.id, standaloneSeries m0) ∈ s) {m : RawMatch} (hne : m.id ≠ m0.id) :
    (m0.id, standaloneSeries m0) ∈ groupStep oracle av s m := by
  by_cases hskip : ((s.map Prod.snd).any (fun ser => seriesContainsId ser m.id)) = true
  · rw [groupStep_skip hskip]
    exact hin
  · have hskip' : ((s.map Prod.snd).any (fun ser => seriesContainsId ser m.id)) = false := by
      simpa using hskip
    cases ho : oracle m.id with
    | none =>
      rw [groupStep_standalone_ofNone hskip' ho]
      exact mem_mapSet_of_ne hin (fun h => hne h.symm) _
    | some d =>
      by_cases hpt : jsTruthyStr d.parent_match_id = true
      · by_cases hk : mapHasKey s (d.parent_match_id.getD "") = true
        · rw [groupStep_parent_has hskip' ho hpt hk]
          exact hin
        · have hk' : mapHasKey s (d.parent_match_id.getD "") = false := by
            simpa using hk
          cases hfs : findSeriesMatches oracle (d.parent_match_id.getD "") av with
          | nil =>
            rw [groupStep_parent_new_nil hskip' ho hpt hk' hfs]
            exact hin
          | cons first rest =>
            rw [groupStep_parent_new_cons hskip' ho hpt hk' hfs]
            refine mem_mapSet_of_ne hin ?_ _
            intro heq
            rw [← heq] at hk'
            rw [mapHasKey_of_mem hin] at hk'
            exact Bool.noConfusion hk'
      · have hpt' : jsTruthyStr d.parent_match_id = false := by simpa using hpt
        rw [groupStep_standalone_ofNoParent hskip' ho hpt']
        exact mem_mapSet_of_ne hin (fun h => hne h.symm) _

theorem fold_keeps (oracle : DetailOracle) (av : List String) (m0 : RawMatch) :
    ∀ (l : List RawMatch) (s : List (String × Series)),
      (∀ x ∈ l, x.id ≠ m0.id) →
      (m0.id, standaloneSeries m0) ∈ s →
      (m0.id, standaloneSeries m0) ∈ l.foldl (groupStep oracle av) s
  | [], _, _, hin => hin
  | m :: l, s, hl, hin =>
    fold_keeps oracle av m0 l (groupStep oracle av s m)
      (fun x hx => hl x (List.mem_cons_of_mem _ hx))
      (groupStep_keeps hin (hl m (List.mem_cons_self _ _)))

/-- C8: a match whose detail fetch fails (the oracle returns no record) is
placed as a standalone single-match Series keyed by its own id, and the run
continues (the embedding is total; the JS `catch` path, which also demotes to
standalone, is unreachable because the fetch helpers swallow their errors). -/
theorem claim_C8 («matches» : List RawMatch) (oracle : DetailOracle) (m : RawMatch)
    (hmem : m ∈ «matches») (hids : («matches».map RawMatch.id).Nodup)
    (hfail : oracle m.id = none) :
    standaloneSeries m ∈ groupMatchesIntoSeries «matches» oracle := by
  obtain ⟨pre, post, rfl⟩ := List.append_of_mem hmem
  have hids' := hids
  rw [List.map_append, List.map_cons, List.nodup_append] at hids'
  obtain ⟨hpre_nodup, hcons_nodup, hdisj⟩ := hids'
  have hpre : ∀ x ∈ pre, x.id ≠ m.id := by
    intro x hx heq
    exact hdisj (heq ▸ List.mem_map_of_mem RawMatch.id hx) (List.mem_cons_self _ _)
  have hpost : ∀ x ∈ post, x.id ≠ m.id := by
    intro x hx heq
    have := (List.nodup_cons.mp hcons_nodup).1
    exact this (heq ▸ List.mem_map_of_mem RawMatch.id hx)
  unfold groupMatchesIntoSeries
  rw [List.foldl_append, List.foldl_cons]
  set av := ((pre ++ m :: post).map RawMatch.id) with hav
  set s0 := pre.foldl (groupStep oracle av) [] with hs0
  have hno0 : ∀ e ∈ s0, seriesContainsId e.2 m.id = false := by
    rw [hs0]
    exact fold_no_failed oracle av hfail pre [] hpre (by simp)
  have hskip : ((s0.map Prod.snd).any (fun ser => seriesContainsId ser m.id)) = false := by
    rw [List.any_eq_false]
    intro ser hser
    obtain ⟨e, he, rfl⟩ := List.mem_map.mp hser
    rw [hno0 e he]
    exact Bool.noConfusion
  have hstep : groupStep oracle av s0 m = mapSet s0 m.id (standaloneSeries m) :=
    groupStep_standalone_ofNone hskip hfail
  rw [hstep]
  have hkeep := fold_keeps oracle av m post
    (mapSet s0 m.id (standaloneSeries m)) hpost
    (mem_mapSet_self s0 m.id (standaloneSeries m))
  exact List.mem_map.mpr ⟨(m.id, standaloneSeries m), hkeep, rfl⟩

def wRm : RawMatch :=
  { id := "wr", date := 3, finished_at := 3, teams := none, results := none,
    voting := none }

def wOracleFail : DetailOracle := fun _ => none

theorem claim_C8_witness :
    wRm ∈ [wRm] ∧ wOracleFail wRm.id = none ∧
    standaloneSeries wRm ∈ groupMatchesIntoSeries [wRm] wOracleFail :=
  ⟨by decide, rfl, claim_C8 [wRm] wOracleFail wRm (by decide) (by decide) rfl⟩

/-! ### C9: series dates and chronological ordering -/

/-- The shape invariant of every constructed series value. -/
def SeriesShape (ser : Series) : Prop :=
  ∃ first rest, ser.«matches» = first :: rest ∧ ser.date = first.date ∧
    ser.«matches».Pairwise (fun a b => a.date ≤ b.date)

theorem shape_standalone (m : RawMatch) : SeriesShape (standaloneSeries m) :=
  ⟨rawSummary m, [], rfl, rfl, List.pairwise_singleton _ _⟩

theorem fsm_sorted (oracle : DetailOracle) (sid : String) (av : List String) :
    (findSeriesMatches oracle sid av).Pairwise (fun a b => a.date ≤ b.date) := by
  haveI : IsTotal MatchSummary (fun a b => a.date ≤ b.date) :=
    ⟨fun a b => Nat.le_total _ _⟩
  haveI : IsTrans MatchSummary (fun a b => a.date ≤ b.date) :=
    ⟨fun _ _ _ h1 h2 => Nat.le_trans h1 h2⟩
  unfold findSeriesMatches
  exact List.sorted_insertionSort _ _

theorem groupStep_shape {oracle : DetailOracle} {av : List String}
    {s : List (String × Series)} (h : ∀ e ∈ s, SeriesShape e.2) (m : RawMatch) :
    ∀ e ∈ groupStep oracle av s m, SeriesShape e.2 := by
  have hstandalone : ∀ e ∈ mapSet s m.id (standaloneSeries m), SeriesShape e.2 := by
    intro e he
    rcases mem_mapSet_elim he with h1 | rfl
    · exact h e h1
    · exact shape_standalone m
  by_cases hskip : ((s.map Prod.snd).any (fun ser => seriesContainsId ser m.id)) = true
  · rw [groupStep_skip hskip]
    exact h
  · have hskip' : ((s.map Prod.snd).any (fun ser => seriesContainsId ser m.id)) = false := by
      simpa using hskip
    cases ho : oracle m.id with
    | none =>
      rw [groupStep_standalone_ofNone hskip' ho]
      exact hstandalone
    | some d =>
      by_cases hpt : jsTruthyStr d.parent_match_id = true
      · by_cases hk : mapHasKey s (d.parent_match_id.getD "") = true
        · rw [groupStep_parent_has hskip' ho hpt hk]
          exact h
        · have hk' : mapHasKey s (d.parent_match_id.getD "") = false := by
            simpa using hk
          cases hfs : findSeriesMatches oracle (d.parent_match_id.getD "") av with
          | nil =>
            rw [groupStep_parent_new_nil hskip' ho hpt hk' hfs]
            exact h
          | cons first rest =>
            rw [groupStep_parent_new_cons hskip' ho hpt hk' hfs]
            intro e he
            rcases mem_mapSet_elim he with h1 | rfl
            · exact h e h1
            · refine ⟨first, rest, rfl, rfl, ?_⟩
              show (first :: rest).Pairwise (fun a b => a.date ≤ b.date)
              rw [← hfs]
              exact fsm_sorted oracle (d.parent_match_id.getD "") av
      · have hpt' : jsTruthyStr d.parent_match_id = false := by simpa using hpt
        rw [groupStep_standalone_ofNoParent hskip' ho hpt']
        exact hstandalone

theorem fold_shape (oracle : DetailOracle) (av : List String) :
    ∀ (l : List RawMatch) (s : List (String × Series)),
      (∀ e ∈ s, SeriesShape e.2) →
      ∀ e ∈ l.foldl (groupStep oracle av) s, SeriesShape e.2
  | [], _, h => h
  | m :: l, s, h =>
    fold_shape oracle av l (groupStep oracle av s m) (groupStep_shape h m)

/-- C9: every Series produced by the reconstructor has its matches sorted
ascending by finish date and takes its `date` from the chronologically first
(hence earliest) member; a standalone series' date is its sole match's date
(the singleton case of the same statement). -/
theorem claim_C9 («matches» : List RawMatch) (oracle : DetailOracle) :
    ∀ s ∈ groupMatchesIntoSeries «matches» oracle,
      ∃ first rest, s.«matches» = first :: rest ∧ s.date = first.date ∧
        s.«matches».Pairwise (fun a b => a.date ≤ b.date) ∧
        ∀ mm ∈ s.«matches», s.date ≤ mm.date := by
  intro s hs
  unfold groupMatchesIntoSeries at hs
  obtain ⟨e, he, rfl⟩ := List.mem_map.mp hs
  obtain ⟨first, rest, hd, hdate, hpw⟩ :=
    fold_shape oracle («matches».map RawMatch.id) «matches» [] (by simp) e he
  refine ⟨first, rest, hd, hdate, hpw, ?_⟩
  intro mm hmm
  rw [hd] at hmm
  rw [hdate]
  rcases List.mem_cons.mp hmm with rfl | hmm2
  · exact Nat.le_refl _
  · rw [hd] at hpw
    exact (List.pairwise_cons.mp hpw).1 mm hmm2

theorem claim_C9_witness :
    standaloneSeries wRm ∈ groupMatchesIntoSeries [wRm] wOracleFail ∧
    (∃ first rest, (standaloneSeries wRm).«matches» = first :: rest ∧
      (standaloneSeries wRm).date = first.date ∧
      (standaloneSeries wRm).«matches».Pairwise (fun a b => a.date ≤ b.date) ∧
      ∀ mm ∈ (standaloneSeries wRm).«matches», (standaloneSeries wRm).date ≤ mm.date) :=
  ⟨by decide, claim_C9 [wRm] wOracleFail (standaloneSeries wRm) (by decide)⟩

/-! ### C1: partition of matches into series -/

/-- The parent-series key a match resolves to (the truthy
`parent_match_id` of its detail record), if any. -/
def parentKey (oracle : DetailOracle) (mid : String) : Option String :=
  match oracle mid with
  | none => none
  | some d =>
    if jsTruthyStr d.parent_match_id then some (d.parent_match_id.getD "")
    else none

theorem parentKey_oracle_some {oracle : DetailOracle} {mid sid : String}
    (h : parentKey oracle mid = some sid) :
    ∃ d, oracle mid = some d ∧ jsTruthyStr d.parent_match_id = true ∧
      d.parent_match_id.getD "" = sid := by
  unfold parentKey at h
  cases ho : oracle mid with
  | none =>
    simp only [ho] at h
    exact Option.noConfusion h
  | some d =>
    simp only [ho] at h
    by_cases hpt : jsTruthyStr d.parent_match_id = true
    · rw [if_pos hpt] at h
      exact ⟨d, rfl, hpt, Option.some.inj h⟩
    · rw [if_neg hpt] at h
      exact Option.noConfusion h

theorem parentKey_none_cases {oracle : DetailOracle} {mid : String}
    (h : parentKey oracle mid = none) :
    oracle mid = none ∨
      ∃ d, oracle mid = some d ∧ jsTruthyStr d.parent_match_id = false := by
  unfold parentKey at h
  cases ho : oracle mid with
  | none => exact Or.inl rfl
  | some d =>
    simp only [ho] at h
    by_cases hpt : jsTruthyStr d.parent_match_id = true
    · rw [if_pos hpt] at h
      exact Option.noConfusion h
    · exact Or.inr ⟨d, rfl, by simpa using hpt⟩

/-- Consistency of the detail oracle with the collected matches: a match's
declared parent exists, lists the match among its members, membership lists
agree with parent pointers, and parent ids do not collide with match ids. -/
structure OracleConsistent (oracle : DetailOracle) («matches» : List RawMatch) :
    Prop where
  nodup : («matches».map RawMatch.id).Nodup
  parent_not_local : ∀ m ∈ «matches», ∀ sid, parentKey oracle m.id = some sid →
    sid ∉ «matches».map RawMatch.id
  parent_lists : ∀ m ∈ «matches», ∀ sid, parentKey oracle m.id = some sid →
    ∃ d, oracle sid = some d ∧ ∃ mem, d.«matches» = some mem ∧ m.id ∈ mem
  members_parent : ∀ m ∈ «matches», ∀ sid, parentKey oracle m.id = some sid →
    ∀ d, oracle sid = some d → ∀ mem, d.«matches» = some mem →
    ∀ x ∈ «matches», x.id ∈ mem → parentKey oracle x.id = some sid

theorem fsm_contains_iff {oracle : DetailOracle} {«matches» : List RawMatch}
    (hc : OracleConsistent oracle «matches») {mP : RawMatch}
    (hmP : mP ∈ «matches») {sid : String}
    (hkey : parentKey oracle mP.id = some sid) {x : RawMatch}
    (hx : x ∈ «matches») :
    ((findSeriesMatches oracle sid («matches».map RawMatch.id)).any
      (fun mm => mm.id == x.id)) = true ↔ parentKey oracle x.id = some sid := by
  constructor
  · intro hany
    obtain ⟨mm, hmm, hbeq⟩ := List.any_eq_true.mp hany
    obtain ⟨d, hd, mem, hmem, mid, md, hmid, -, -, rfl⟩ :=
      mem_findSeriesMatches.mp hmm
    have hid : mid = x.id := beq_iff_eq.mp hbeq
    rw [hid] at hmid
    exact hc.members_parent mP hmP sid hkey d hd mem hmem x hx hmid
  · intro hpx
    obtain ⟨d, hd, mem, hmem, hxid⟩ := hc.parent_lists x hx sid hpx
    obtain ⟨dx, hdx, -, -⟩ := parentKey_oracle_some hpx
    have hcont : («matches».map RawMatch.id).contains x.id = true :=
      contains_mem.mpr (List.mem_map_of_mem RawMatch.id hx)
    have hmm : detailSummary x.id dx ∈
        findSeriesMatches oracle sid («matches».map RawMatch.id) :=
      mem_findSeriesMatches.mpr ⟨d, hd, mem, hmem, x.id, dx, hxid, hcont, hdx, rfl⟩
    exact List.any_eq_true.mpr ⟨detailSummary x.id dx, hmm, by simp [detailSummary]⟩

/-- Characterization of every entry of the series map after processing the
matches in `done`. -/
def EntryOk (oracle : DetailOracle) (av : List String) (done : List RawMatch)
    (e : String × Series) : Prop :=
  (∃ m ∈ done, parentKey oracle m.id = some e.1 ∧
    e.2.«matches» = findSeriesMatches oracle e.1 av) ∨
  (∃ m ∈ done, parentKey oracle m.id = none ∧ e.1 = m.id ∧
    e.2 = standaloneSeries m)

/-- Invariant of the `groupMatchesIntoSeries` loop. -/
def GroupInv (oracle : DetailOracle) (av : List String) (done : List RawMatch)
    (s : List (String × Series)) : Prop :=
  (∀ e ∈ s, EntryOk oracle av done e) ∧
  s.Pairwise (fun a b => a.1 ≠ b.1) ∧
  (∀ m ∈ done, ∃ e ∈ s, seriesContainsId e.2 m.id = true)

theorem entryOk_mono {oracle : DetailOracle} {av : List String}
    {done done' : List RawMatch} (hsub : ∀ y ∈ done, y ∈ done')
    {e : String × Series} (h : EntryOk oracle av done e) :
    EntryOk oracle av done' e := by
  rcases h with ⟨m, hm, h1, h2⟩ | ⟨m, hm, h1, h2, h3⟩
  · exact Or.inl ⟨m, hsub m hm, h1, h2⟩
  · exact Or.inr ⟨m, hsub m hm, h1, h2, h3⟩

/-- An entry containing a collected match determines its key. -/
theorem entry_contains_key {oracle : DetailOracle} {«matches» : List RawMatch}
    (hc : OracleConsistent oracle «matches») {done : List RawMatch}
    (hdone : ∀ y ∈ done, y ∈ «matches») {e : String × Series}
    (he : EntryOk oracle («matches».map RawMatch.id) done e) {x : RawMatch}
    (hx : x ∈ «matches») (hcont : seriesContainsId e.2 x.id = true) :
    parentKey oracle x.id = some e.1 ∨
      (parentKey oracle x.id = none ∧ e.1 = x.id) := by
  rcases he with ⟨mP, hmP, hkey, hmatches⟩ | ⟨m0, hm0, hnone, hk, hval⟩
  · left
    have : ((findSeriesMatches oracle e.1 («matches».map RawMatch.id)).any
        (fun mm => mm.id == x.id)) = true := by
      unfold seriesContainsId at hcont
      rwa [hmatches] at hcont
    exact (fsm_contains_iff hc (hdone mP hmP) hkey hx).mp this
  · right
    rw [hval, seriesContainsId_standalone] at hcont
    have hid : m0.id = x.id := beq_iff_eq.mp hcont
    rw [hk, hid]
    rw [← hid]
    exact ⟨hnone, rfl⟩

theorem countP_eq_one_of {α : Type} {l : List α} {p : α → Bool}
    (hex : ∃ e ∈ l, p e = true)
    (hpw : l.Pairwise (fun a b => ¬(p a = true ∧ p b = true))) :
    l.countP p = 1 := by
  induction l with
  | nil => simp at hex
  | cons a l ih =>
    rw [List.countP_cons]
    obtain ⟨hpw1, hpw2⟩ := List.pairwise_cons.mp hpw
    by_cases hpa : p a = true
    · have hzero : l.countP p = 0 :=
        List.countP_eq_zero.mpr (fun b hb hpb => hpw1 b hb ⟨hpa, hpb⟩)
      rw [hzero, if_pos hpa]
    · rw [if_neg hpa]
      obtain ⟨e, he, hpe⟩ := hex
      rcases List.mem_cons.mp he with rfl | he2
      · exact absurd hpe hpa
      · simpa using ih ⟨e, he2, hpe⟩ hpw2

theorem mapSet_of_not_has {α : Type} {mp : List (String × α)} {k : String}
    (h : mapHasKey mp k = false) (v : α) : mapSet mp k v = mp ++ [(k, v)] := by
  unfold mapSet
  rw [if_neg (by simp [h])]

theorem exists_key_of_mapHasKey {α : Type} {mp : List (String × α)} {k : String}
    (h : mapHasKey mp k = true) : ∃ v, (k, v) ∈ mp := by
  obtain ⟨kv, hkv, hbeq⟩ := List.any_eq_true.mp h
  refine ⟨kv.2, ?_⟩
  have : kv.1 = k := beq_iff_eq.mp hbeq
  rw [← this]
  exact hkv

theorem groupInv_step {oracle : DetailOracle} {«matches» : List RawMatch}
    (hc : OracleConsistent oracle «matches») {done : List RawMatch} {m : RawMatch}
    (hdone : ∀ y ∈ done, y ∈ «matches») (hm : m ∈ «matches»)
    (hmnew : ∀ y ∈ done, y.id ≠ m.id) {s : List (String × Series)}
    (hinv : GroupInv oracle («matches».map RawMatch.id) done s) :
    GroupInv oracle («matches».map RawMatch.id) (done ++ [m])
      (groupStep oracle («matches».map RawMatch.id) s m) := by
  obtain ⟨hA, hB, hC⟩ := hinv
  have hsubdone : ∀ y ∈ done, y ∈ done ++ [m] :=
    fun y hy => List.mem_append_left _ hy
  cases hpk : parentKey oracle m.id with
  | none =>
    have hnocont : ∀ e ∈ s, seriesContainsId e.2 m.id = false := by
      intro e he
      rw [Bool.eq_false_iff]
      intro hcont
      rcases hA e he with ⟨mP, hmP, hkeyP, hmatchesP⟩ | ⟨m0, hm0, hn0, hk0, hv0⟩
      · unfold seriesContainsId at hcont
        rw [hmatchesP] at hcont
        have h2 := (fsm_contains_iff hc (hdone mP hmP) hkeyP hm).mp hcont
        rw [hpk] at h2
        exact Option.noConfusion h2
      · rw [hv0, seriesContainsId_standalone] at hcont
        exact hmnew m0 hm0 (beq_iff_eq.mp hcont)
    have hskip' : ((s.map Prod.snd).any (fun ser => seriesContainsId ser m.id)) = false := by
      rw [List.any_eq_false]
      intro ser hser
      obtain ⟨e, he, rfl⟩ := List.mem_map.mp hser
      intro hx
      have hfalse := hnocont e he
      rw [hx] at hfalse
      exact Bool.noConfusion hfalse
    have hfresh : ∀ e ∈ s, e.1 ≠ m.id := by
      intro e he heq
      rcases hA e he with ⟨mP, hmP, hkeyP, -⟩ | ⟨m0, hm0, -, hk0, -⟩
      · exact hc.parent_not_local mP (hdone mP hmP) e.1 hkeyP
          (heq ▸ List.mem_map_of_mem RawMatch.id hm)
      · refine hmnew m0 hm0 ?_
        rw [← hk0]
        exact heq
    have hhk : mapHasKey s m.id = false := by
      rw [Bool.eq_false_iff]
      intro hk
      obtain ⟨v, hv⟩ := exists_key_of_mapHasKey hk
      exact hfresh (m.id, v) hv rfl
    have hstep : groupStep oracle («matches».map RawMatch.id) s m =
        s ++ [(m.id, standaloneSeries m)] := by
      rcases parentKey_none_cases hpk with ho | ⟨d, ho, hpt⟩
      · rw [groupStep_standalone_ofNone hskip' ho, mapSet_of_not_has hhk]
      · rw [groupStep_standalone_ofNoParent hskip' ho hpt, mapSet_of_not_has hhk]
    rw [hstep]
    refine ⟨?_, ?_, ?_⟩
    · intro e he
      rcases List.mem_append.mp he with h1 | h2
      · exact entryOk_mono hsubdone (hA e h1)
      · obtain rfl : e = (m.id, standaloneSeries m) := by simpa using h2
        exact Or.inr ⟨m, by simp, hpk, rfl, rfl⟩
    · rw [List.pairwise_append]
      refine ⟨hB, List.pairwise_singleton _ _, ?_⟩
      intro a ha b hb
      obtain rfl : b = (m.id, standaloneSeries m) := by simpa using hb
      exact hfresh a ha
    · intro m' hm'
      rcases List.mem_append.mp hm' with h1 | h2
      · obtain ⟨e, he, hec⟩ := hC m' h1
        exact ⟨e, List.mem_append_left _ he, hec⟩
      · obtain rfl : m' = m := by simpa using h2
        refine ⟨(m'.id, standaloneSeries m'), by simp, ?_⟩
        rw [seriesContainsId_standalone]
        simp
  | some sid =>
    obtain ⟨d, ho, hpt, hgetd⟩ := parentKey_oracle_some hpk
    have hcontm : ((findSeriesMatches oracle sid («matches».map RawMatch.id)).any
        (fun mm => mm.id == m.id)) = true :=
      (fsm_contains_iff hc hm hpk hm).mpr hpk
    by_cases hk : mapHasKey s sid = true
    · obtain ⟨v, hv⟩ := exists_key_of_mapHasKey hk
      have hvmatches : v.«matches» =
          findSeriesMatches oracle sid («matches».map RawMatch.id) := by
        rcases hA (sid, v) hv with ⟨mP, hmP, hkeyP, hmat⟩ | ⟨m0, hm0, -, hk0, -⟩
        · exact hmat
        · exfalso
          refine hc.parent_not_local m hm sid hpk ?_
          have hsid : sid = m0.id := hk0
          rw [hsid]
          exact List.mem_map_of_mem RawMatch.id (hdone m0 hm0)
      have hcent : seriesContainsId v m.id = true := by
        unfold seriesContainsId
        rw [hvmatches]
        exact hcontm
      have hskip : ((s.map Prod.snd).any (fun ser => seriesContainsId ser m.id)) = true :=
        List.any_eq_true.mpr ⟨v, List.mem_map_of_mem Prod.snd hv, hcent⟩
      rw [groupStep_skip hskip]
      refine ⟨fun e he => entryOk_mono hsubdone (hA e he), hB, ?_⟩
      intro m' hm'
      rcases List.mem_append.mp hm' with h1 | h2
      · exact hC m' h1
      · obtain rfl : m' = m := by simpa using h2
        exact ⟨(sid, v), hv, hcent⟩
    · have hk' : mapHasKey s sid = false := by simpa using hk
      have hnocont : ∀ e ∈ s, seriesContainsId e.2 m.id = false := by
        intro e he
        rw [Bool.eq_false_iff]
        intro hcont
        rcases hA e he with ⟨mP, hmP, hkeyP, hmatchesP⟩ | ⟨m0, hm0, hn0, hk0, hv0⟩
        · unfold seriesContainsId at hcont
          rw [hmatchesP] at hcont
          have h2 := (fsm_contains_iff hc (hdone mP hmP) hkeyP hm).mp hcont
          rw [hpk] at h2
          have hsid : sid = e.1 := Option.some.inj h2
          have hkk : mapHasKey s sid = true :=
            List.any_eq_true.mpr ⟨e, he, beq_iff_eq.mpr hsid.symm⟩
          rw [hk'] at hkk
          exact Bool.noConfusion hkk
        · rw [hv0, seriesContainsId_standalone] at hcont
          exact hmnew m0 hm0 (beq_iff_eq.mp hcont)
      have hskip' : ((s.map Prod.snd).any (fun ser => seriesContainsId ser m.id)) = false := by
        rw [List.any_eq_false]
        intro ser hser
        obtain ⟨e, he, rfl⟩ := List.mem_map.mp hser
        intro hx
        have hfalse := hnocont e he
        rw [hx] at hfalse
        exact Bool.noConfusion hfalse
      obtain ⟨mmW, hmmW, hbeqW⟩ := List.any_eq_true.mp hcontm
      have hfs_ne : findSeriesMatches oracle sid («matches».map RawMatch.id) ≠ [] := by
        intro hnil
        rw [hnil] at hmmW
        exact List.not_mem_nil _ hmmW
      obtain ⟨first, rest, hfs⟩ := List.exists_cons_of_ne_nil hfs_ne
      have hstep := groupStep_parent_new_cons hskip' ho hpt
        (by rw [hgetd]; exact hk') (by rw [hgetd]; exact hfs)
      rw [hgetd] at hstep
      rw [hstep, mapSet_of_not_has hk']
      refine ⟨?_, ?_, ?_⟩
      · intro e he
        rcases List.mem_append.mp he with h1 | h2
        · exact entryOk_mono hsubdone (hA e h1)
        · obtain rfl : e = (sid,
              { id := sid, date := first.date, «matches» := first :: rest }) := by
            simpa using h2
          refine Or.inl ⟨m, by simp, hpk, ?_⟩
          exact hfs.symm
      · rw [List.pairwise_append]
        refine ⟨hB, List.pairwise_singleton _ _, ?_⟩
        intro a ha b hb heq
        obtain rfl : b = (sid,
            { id := sid, date := first.date, «matches» := first :: rest }) := by
          simpa using hb
        have hkk : mapHasKey s sid = true :=
          List.any_eq_true.mpr ⟨a, ha, beq_iff_eq.mpr heq⟩
        rw [hk'] at hkk
        exact Bool.noConfusion hkk
      · intro m' hm'
        rcases List.mem_append.mp hm' with h1 | h2
        · obtain ⟨e, he, hec⟩ := hC m' h1
          exact ⟨e, List.mem_append_left _ he, hec⟩
        · obtain rfl : m' = m := by simpa using h2
          refine ⟨(sid,
            { id := sid, date := first.date, «matches» := first :: rest }),
            by simp, ?_⟩
          show ((first :: rest).any (fun mm => mm.id == m'.id)) = true
          rw [← hfs]
          exact hcontm

theorem groupInv_fold {oracle : DetailOracle} {«matches» : List RawMatch}
    (hc : OracleConsistent oracle «matches») :
    ∀ (todo done : List RawMatch) (s : List (String × Series)),
      «matches» = done ++ todo →
      GroupInv oracle («matches».map RawMatch.id) done s →
      GroupInv oracle («matches».map RawMatch.id) «matches»
        (todo.foldl (groupStep oracle («matches».map RawMatch.id)) s)
  | [], done, s, hsplit, hinv => by
    rw [List.foldl_nil]
    have h2 : «matches» = done := by simpa using hsplit
    rw [← h2] at hinv
    exact hinv
  | m :: todo, done, s, hsplit, hinv => by
    have hdone : ∀ y ∈ done, y ∈ «matches» := by
      rw [hsplit]
      intro y hy
      exact List.mem_append_left _ hy
    have hm : m ∈ «matches» := by
      rw [hsplit]
      simp
    have hmnew : ∀ y ∈ done, y.id ≠ m.id := by
      intro y hy heq
      have hn := hc.nodup
      rw [hsplit, List.map_append, List.map_cons, List.nodup_append] at hn
      exact hn.2.2 (List.mem_map_of_mem RawMatch.id hy)
        (by rw [heq]; exact List.mem_cons_self _ _)
    have step := groupInv_step hc hdone hm hmnew hinv
    rw [List.foldl_cons]
    exact groupInv_fold hc todo (done ++ [m]) _ (by rw [hsplit]; simp) step

/-- C1 (amended): provided the detail oracle is consistent with the collected
matches — a declared parent's record exists and lists the match among its
members, member lists agree with per-match parent pointers, and no parent id
coincides with a collected match id — every match appears in exactly one
Series of the reconstructor's output. Absent those assumptions the claim is
false: a match whose series detail fetch fails or whose series resolves to an
empty member intersection is lost (see the counterexample). -/
theorem claim_C1_amended («matches» : List RawMatch) (oracle : DetailOracle)
    (hc : OracleConsistent oracle «matches») :
    ∀ m ∈ «matches»,
      (groupMatchesIntoSeries «matches» oracle).countP
        (fun ser => seriesContainsId ser m.id) = 1 := by
  intro m hm
  unfold groupMatchesIntoSeries
  obtain ⟨hA, hB, hC⟩ := groupInv_fold hc «matches» [] []
    (by simp) ⟨by simp, List.Pairwise.nil, by simp⟩
  rw [List.countP_map]
  apply countP_eq_one_of
  · obtain ⟨e, he, hec⟩ := hC m hm
    exact ⟨e, he, hec⟩
  · refine hB.imp_of_mem ?_
    intro a b ha hb hne hcontra
    obtain ⟨hca, hcb⟩ := hcontra
    have ka := entry_contains_key hc (fun y hy => hy) (hA a ha) hm hca
    have kb := entry_contains_key hc (fun y hy => hy) (hA b hb) hm hcb
    rcases ka with ka | ⟨kna, ka⟩ <;> rcases kb with kb | ⟨knb, kb⟩
    · rw [ka] at kb
      exact hne (Option.some.inj kb)
    · rw [ka] at knb
      exact Option.noConfusion knb
    · rw [kb] at kna
      exact Option.noConfusion kna
    · exact hne (ka.trans kb.symm)

/-- The concrete input refuting C1 as stated: one collected match whose detail
declares a parent series, while the series' own detail fetch fails, so
`findSeriesMatches` returns the empty list and the match is stored nowhere. -/
def cexMatch : RawMatch :=
  { id := "cm", date := 3, finished_at := 3, teams := none, results := none,
    voting := none }

def cexOracle : DetailOracle := fun mid =>
  if mid = "cm" then some { parent_match_id := some "P", «matches» := none, finished_at := 3, teams := none, results := none, voting := none }
  else none

/-- C1 counterexample: the match `cexMatch` is in the deduplicated collection,
its parent-series lookup succeeds (parent "P"), the series detail fetch fails,
and the reconstructor's output is empty — the match appears in zero Series,
refuting "every match appears in exactly one Series". -/
theorem claim_C1_counterexample :
    cexMatch ∈ [cexMatch] ∧
    parentKey cexOracle cexMatch.id = some "P" ∧
    cexOracle "P" = none ∧
    groupMatchesIntoSeries [cexMatch] cexOracle = [] ∧
    (groupMatchesIntoSeries [cexMatch] cexOracle).countP
      (fun ser => seriesContainsId ser cexMatch.id) = 0 := by
  refine ⟨by decide, by decide, by decide, by decide, by decide⟩

def wC1m1 : RawMatch :=
  { id := "c1", date := 5, finished_at := 5, teams := none, results := none,
    voting := none }

def wC1m2 : RawMatch :=
  { id := "c2", date := 4, finished_at := 4, teams := none, results := none,
    voting := none }

def wC1P : Detail :=
  { parent_match_id := none, «matches» := some ["c1", "c2"], finished_at := 0, teams := none, results := none, voting := none }

def wC1Oracle : DetailOracle := fun mid =>
  if mid = "c1" then some { parent_match_id := some "P", «matches» := none, finished_at := 5, teams := none, results := none, voting := none }
  else if mid = "c2" then some { parent_match_id := some "P", «matches» := none, finished_at := 4, teams := none, results := none, voting := none }
  else if mid = "P" then some wC1P
  else none

theorem wC1_consistent : OracleConsistent wC1Oracle [wC1m1, wC1m2] := by
  refine ⟨by decide, ?_, ?_, ?_⟩
  · intro m hm sid hsid
    rcases (by simpa using hm : m = wC1m1 ∨ m = wC1m2) with rfl | rfl
    · rw [show parentKey wC1Oracle wC1m1.id = some "P" from by decide] at hsid
      obtain rfl : "P" = sid := Option.some.inj hsid
      decide
    · rw [show parentKey wC1Oracle wC1m2.id = some "P" from by decide] at hsid
      obtain rfl : "P" = sid := Option.some.inj hsid
      decide
  · intro m hm sid hsid
    rcases (by simpa using hm : m = wC1m1 ∨ m = wC1m2) with rfl | rfl
    · rw [show parentKey wC1Oracle wC1m1.id = some "P" from by decide] at hsid
      obtain rfl : "P" = sid := Option.some.inj hsid
      exact ⟨wC1P, by decide, ["c1", "c2"], by decide, by decide⟩
    · rw [show parentKey wC1Oracle wC1m2.id = some "P" from by decide] at hsid
      obtain rfl : "P" = sid := Option.some.inj hsid
      exact ⟨wC1P, by decide, ["c1", "c2"], by decide, by decide⟩
  · intro m hm sid hsid d hd mem hmem x hx hxmem
    have hsidP : sid = "P" := by
      rcases (by simpa using hm : m = wC1m1 ∨ m = wC1m2) with rfl | rfl
      · rw [show parentKey wC1Oracle wC1m1.id = some "P" from by decide] at hsid
        exact (Option.some.inj hsid).symm
      · rw [show parentKey wC1Oracle wC1m2.id = some "P" from by decide] at hsid
        exact (Option.some.inj hsid).symm
    subst hsidP
    rcases (by simpa using hx : x = wC1m1 ∨ x = wC1m2) with rfl | rfl
    · decide
    · decide

theorem claim_C1_amended_witness :
    wC1m1 ∈ [wC1m1, wC1m2] ∧
    (groupMatchesIntoSeries [wC1m1, wC1m2] wC1Oracle).countP
      (fun ser => seriesContainsId ser wC1m1.id) = 1 :=
  ⟨by decide,
   claim_C1_amended [wC1m1, wC1m2] wC1Oracle wC1_consistent wC1m1 (by decide)⟩
